import Mathlib

/-!
Verification development for the UTAM page-object browser extension core:
the declarative page-object definition resolver (PageObjectDatabase) and the
live DOM element walker (ElementFinder).

The JavaScript source is embedded shallowly:

* JS objects with optional properties become structures with Option fields;
  JS truthiness of a string-valued property is the predicate strTruthy.
* JS object maps with insertion order (the element map, the method map, the
  parsed page-object cache) become association lists updated by upsert,
  which replaces in place or appends a fresh key at the end, exactly as JS
  property assignment does.
* The resolver mutates state in two places only: it grows the raw args
  array of a method definition (PageObjectDatabase, processMethod), and it
  writes the parsed page-object cache (parsePageObject).  The embedding
  threads the definition map through every function and returns the cache
  writes as an ordered log; the cache is never read during resolution, which
  the log-output style makes structural.
* Mutual recursion of the resolver (parsePageObject, processMethods,
  processMethod, the step loop, processStep) is expressed as a single
  fuel-indexed interpreter run over a request type, structurally recursive
  on the fuel, so that concrete executions reduce inside the kernel.  Fuel
  exhaustion (JsRes.fuelOut) models the unbounded recursion the JS engine
  would perform; JsRes.err models a thrown TypeError.
-/

/-- Result of a JavaScript computation: a value, a thrown TypeError, or
fuel exhaustion of the interpreter (modelling non-termination). -/
inductive JsRes (α : Type) where
  | ok (a : α)
  | err
  | fuelOut
deriving Repr, DecidableEq

def JsRes.bind {α β : Type} : JsRes α → (α → JsRes β) → JsRes β
  | .ok a, f => f a
  | .err, _ => .err
  | .fuelOut, _ => .fuelOut

instance : Monad JsRes where
  pure := .ok
  bind := JsRes.bind

@[simp] theorem JsRes.bind_ok {α β : Type} (a : α) (f : α → JsRes β) :
    JsRes.bind (.ok a) f = f a := rfl

@[simp] theorem JsRes.bind_err {α β : Type} (f : α → JsRes β) :
    JsRes.bind .err f = .err := rfl

@[simp] theorem JsRes.bind_fuelOut {α β : Type} (f : α → JsRes β) :
    JsRes.bind .fuelOut f = .fuelOut := rfl

@[simp] theorem JsRes.monad_bind_eq {α β : Type} (x : JsRes α) (f : α → JsRes β) :
    x >>= f = JsRes.bind x f := rfl

@[simp] theorem JsRes.pure_eq {α : Type} (a : α) : (pure a : JsRes α) = .ok a := rfl

/-- Truthiness of an optional JS string property: present and non-empty. -/
def strTruthy : Option String → Bool
  | some s => s ≠ ""
  | none => false

/-- JS `a || b` for string values: keep a when truthy, else b. -/
def strOr (a : Option String) (b : String) : String :=
  match a with
  | some s => if s ≠ "" then s else b
  | none => b

/-- Association-list lookup by string key (first match), as JS property read. -/
def alookup {α : Type} (k : String) : List (String × α) → Option α
  | [] => none
  | (k1, v) :: rest => if k1 = k then some v else alookup k rest

/-- JS property assignment on an insertion-ordered object: replace the value
at an existing key in place, or append a fresh key at the end. -/
def upsert {α : Type} (k : String) (v : α) : List (String × α) → List (String × α)
  | [] => [(k, v)]
  | (k1, v1) :: rest => if k1 = k then (k, v) :: rest else (k1, v1) :: upsert k v rest

/-- Starts-with test on char lists (first the text, then the pattern). -/
def startsWithCh : List Char → List Char → Bool
  | _, [] => true
  | [], _ :: _ => false
  | a :: as, b :: bs => a == b && startsWithCh as bs

/-- Infix test on char lists. -/
def hasInfixCh : List Char → List Char → Bool
  | [], pat => pat.isEmpty
  | c :: rest, pat => startsWithCh (c :: rest) pat || hasInfixCh rest pat

/-- JS String.includes: substring test (every string contains the empty
string). -/
def containsSub (s pat : String) : Bool :=
  hasInfixCh s.data pat.data

/-- First-occurrence replacement on char lists. -/
def replaceFirstCh : List Char → List Char → List Char → List Char
  | [], _, _ => []
  | c :: rest, pat, repl =>
    if startsWithCh (c :: rest) pat then repl ++ (c :: rest).drop pat.length
    else c :: replaceFirstCh rest pat repl

/-- JS String.replace with a plain string pattern: replace the first
occurrence only (a string without the pattern is returned unchanged). -/
def replaceFirst (s pat repl : String) : String :=
  String.mk (replaceFirstCh s.data pat.data repl.data)

namespace DataTypes

def VOID : String := "void"
def STRING : String := "string"
def NUMBER : String := "number"
def BOOLEAN : String := "boolean"
def CONTAINER : String := "container"
def DOCUMENT : String := "document"
def NAVIGATION : String := "navigation"
def BASIC : String := "basic"
def METHOD : String := "method"
def PAGE_OBJECT : String := "pageobject"
def INTRINSIC : String := "intrinsic"
def ROOT : String := "root"

end DataTypes

/-- Named argument object as it appears in selector args, matcher args,
method args and effective-argument lists: a name with optional type and
optional bound value. -/
structure Arg where
  name : String
  type : Option String := none
  value : Option String := none
deriving Repr, DecidableEq

/-- Raw selector object of a definition: optional css template, optional
args array (present but empty is JS-truthy, hence the Option of a list),
and the returnAll flag. -/
structure Selector where
  css : Option String := none
  args : Option (List Arg) := none
  returnAll : Bool := false
deriving Repr, DecidableEq

/-- Matcher object of a filter definition. -/
structure Matcher where
  type : Option String := none
  args : Option (List Arg) := none
deriving Repr, DecidableEq

/-- Filter object of an element definition. -/
structure ElemFilter where
  apply : Option String := none
  matcher : Option Matcher := none
  findFirst : Bool := false
deriving Repr, DecidableEq

/-- Description object: optional author and optional text.  The JS text is a
string or an array of strings joined with a blank; a single string s is
embedded as the singleton list, which joins back to s. -/
structure Desc where
  author : Option String := none
  text : Option (List String) := none
deriving Repr, DecidableEq

/-- Declared type of an element definition: either a string (a primitive
name, the container literal, or a page-object URI) or an array of basic
capability names. -/
inductive TypeDecl where
  | str (s : String)
  | caps (cs : List String)
deriving Repr, DecidableEq

/-- JS truthiness of a type value: a non-empty string, or any array. -/
def tdTruthy : TypeDecl → Bool
  | .str s => s ≠ ""
  | .caps _ => true

/-- JS string coercion of a type value when used as an object key
(arrays join with commas). -/
def tdKey : TypeDecl → String
  | .str s => s
  | .caps cs => String.intercalate "," cs

/-- JS `t || d` on a possibly absent type value. -/
def tdOr (t : Option TypeDecl) (d : TypeDecl) : TypeDecl :=
  match t with
  | some v => if tdTruthy v then v else d
  | none => d

/-- JS includes("/") on a type value: substring test on a string, membership
test on an array. -/
def tdIncludesSlash : TypeDecl → Bool
  | .str s => containsSub s "/"
  | .caps cs => cs.contains "/"

mutual
/-- Raw step of a method compose array. -/
inductive StepDef where
  | mk (element apply applyExternal returnType : Option String)
       (chain : Bool) (args : Option (List StepArg))
/-- Raw argument of a method step: optional type tag, optional value
(a page-object URI for container typing), optional predicate holding the
compose array of a waitFor condition. -/
inductive StepArg where
  | mk (type value : Option String) (predicate : Option (List StepDef))
end

def StepDef.element : StepDef → Option String
  | .mk e _ _ _ _ _ => e

def StepDef.apply : StepDef → Option String
  | .mk _ a _ _ _ _ => a

def StepDef.applyExternal : StepDef → Option String
  | .mk _ _ a _ _ _ => a

def StepDef.returnType : StepDef → Option String
  | .mk _ _ _ r _ _ => r

def StepDef.chain : StepDef → Bool
  | .mk _ _ _ _ c _ => c

def StepDef.args : StepDef → Option (List StepArg)
  | .mk _ _ _ _ _ a => a

def StepArg.type : StepArg → Option String
  | .mk t _ _ => t

def StepArg.value : StepArg → Option String
  | .mk _ v _ => v

def StepArg.predicate : StepArg → Option (List StepDef)
  | .mk _ _ p => p

/-- Raw method definition.  The ret field is the JS "return" property used
by imperative extension steps. -/
structure MethodDef where
  name : String
  args : Option (List Arg) := none
  returnType : Option String := none
  ret : Option String := none
  compose : Option (List StepDef) := none
  description : Option Desc := none

/-- Raw element definition.  Children under the shadow branch of the JS
document are the shadowElements list. -/
inductive ElementDef where
  | mk (name : String) (type : Option TypeDecl) (selector : Option Selector)
       (filter : Option ElemFilter) (pub : Bool) (description : Option Desc)
       (elements : List ElementDef) (shadowElements : List ElementDef)

def ElementDef.name : ElementDef → String
  | .mk n _ _ _ _ _ _ _ => n

def ElementDef.type : ElementDef → Option TypeDecl
  | .mk _ t _ _ _ _ _ _ => t

def ElementDef.selector : ElementDef → Option Selector
  | .mk _ _ s _ _ _ _ _ => s

def ElementDef.filter : ElementDef → Option ElemFilter
  | .mk _ _ _ f _ _ _ _ => f

def ElementDef.pub : ElementDef → Bool
  | .mk _ _ _ _ p _ _ _ => p

def ElementDef.description : ElementDef → Option Desc
  | .mk _ _ _ _ _ d _ _ => d

def ElementDef.elements : ElementDef → List ElementDef
  | .mk _ _ _ _ _ _ es _ => es

def ElementDef.shadowElements : ElementDef → List ElementDef
  | .mk _ _ _ _ _ _ _ ss => ss

/-- Raw page-object definition, the parsed JSON document plus its source
text (the JSON text itself is handled by the external storage collaborator
and carried opaquely). -/
structure PageObjectDef where
  root : Bool := false
  selector : Option Selector := none
  description : Option Desc := none
  elements : List ElementDef := []
  shadowElements : List ElementDef := []
  methods : List MethodDef := []
  source : String := ""

/-- The full definition set keyed by URI, insertion ordered. -/
abbrev Defs := List (String × PageObjectDef)

/-- Parsed element descriptor.  Fields are Option-typed because processStep
copies a possibly missing element into a bare object whose properties are
all undefined. -/
structure ElemDesc where
  name : Option String := none
  displayName : Option String := none
  description : Option String := none
  effectiveArgs : Option (List Arg) := none
  type : Option TypeDecl := none
  category : Option String := none
  selector : Option Selector := none
  returnsList : Bool := false
  filter : Option ElemFilter := none
  parent : Option String := none
  pub : Bool := false
  isInShadowRoot : Bool := false
deriving Repr, DecidableEq

/-- Parsed method descriptor. -/
structure MethodDesc where
  displayName : String
  name : String
  description : Option String := none
  effectiveArgs : List Arg := []
  category : String := DataTypes.METHOD
  type : TypeDecl := .str ""
  pub : Bool := true
  lastStepApply : String := ""
  elements : List ElemDesc := []
deriving Repr, DecidableEq

/-- Parsed page object. -/
structure Parsed where
  uri : String
  source : String := ""
  author : Option String := none
  description : Option String := none
  elements : List (String × ElemDesc) := []
  methods : List (String × MethodDesc) := []
deriving Repr, DecidableEq

/-- Ordered log of writes to the parsed page-object cache. -/
abbrev WLog := List (String × Parsed)

/-- Intrinsic method descriptor as built by createIntrinsicMethod. -/
structure Intrinsic where
  displayName : String
  name : String
  description : String
  effectiveArgs : List Arg
  category : String
  type : String
  pub : Bool
deriving Repr, DecidableEq

/-- PageObjectDatabase.createIntrinsicMethod. -/
def createIntrinsicMethod (name description : String)
    (returnType : String := DataTypes.VOID) (args : List Arg := []) : Intrinsic :=
  { displayName := name
    name := name
    description := description
    effectiveArgs := args
    category := DataTypes.INTRINSIC
    type := returnType
    pub := true }

/-- Intrinsic method catalog of PageObjectDatabase, in group insertion order
(basic, actionable, clickable, editable, draggable, list, element, document,
navigation). -/
def intrinsicMethods : List (String × List Intrinsic) :=
  [ ("basic",
     [ createIntrinsicMethod "containsElement"
         "Gets a value indicating whether this element contains a given a child element."
         DataTypes.BOOLEAN
     , createIntrinsicMethod "waitFor"
         "Waits for a condition to be met for this element."
     , createIntrinsicMethod "getAttribute"
         "Gets the string value of a attribute for this element."
         DataTypes.STRING
         [{ name := "attribute", type := some DataTypes.STRING }]
     , createIntrinsicMethod "getClassAttribute"
         "Gets the string value of the class attribute for this element. An alias for getAttribute(\"class\")."
         DataTypes.STRING
     , createIntrinsicMethod "getCssPropertyValue"
         "Gets the value of a CSS property for this element."
         DataTypes.STRING
         [{ name := "propertyName", type := some DataTypes.NUMBER }]
     , createIntrinsicMethod "getText"
         "Gets the displayed text of this element."
         DataTypes.STRING
     , createIntrinsicMethod "getTitle"
         "Gets the value of the title attribute of this element. An alias for getAttribute(\"title\")."
         DataTypes.STRING
     , createIntrinsicMethod "getValue"
         "Gets the value of the \"value\" attribute of an <input> element."
         DataTypes.STRING
     , createIntrinsicMethod "isEnabled"
         "Gets a value indicating whether this element is enabled."
         DataTypes.BOOLEAN
     , createIntrinsicMethod "isFocused"
         "Gets a value indicating whether this element is focused."
         DataTypes.BOOLEAN
     , createIntrinsicMethod "isPresent"
         "Gets a value indicating whether this element is present in the loaded document."
         DataTypes.BOOLEAN
     , createIntrinsicMethod "isVisible"
         "Gets a value indicating whether this element is visible."
         DataTypes.BOOLEAN
     , createIntrinsicMethod "waitForAbsence"
         "Waits for this element to be removed from the document."
     , createIntrinsicMethod "waitForInvisible"
         "Waits for this element to be invisible."
     , createIntrinsicMethod "waitForVisible"
         "Waits for this element to be visible."
     ])
  , ("actionable",
     [ createIntrinsicMethod "blur"
         "Activates the blur event on this element, removing focus from it."
     , createIntrinsicMethod "focus"
         "Activates the focus event on this element, setting focus from it."
     , createIntrinsicMethod "moveTo"
         "Moves the mouse to the center of this element."
     , createIntrinsicMethod "scrollToCenter"
         "Scrolls this element to the center of the browser view port."
     , createIntrinsicMethod "scrollToTop"
         "Scrolls this element to the top of the browser view port."
     ])
  , ("clickable",
     [ createIntrinsicMethod "click"
         "Clicks on this element."
     , createIntrinsicMethod "doubleClick"
         "Double-clicks on this element."
     , createIntrinsicMethod "rightClick"
         "Right-clicks on this element."
     , createIntrinsicMethod "clickAndHold"
         "Clicks this element and holds the mouse button down for a specified number of seconds."
         DataTypes.VOID
         [{ name := "holdDurationSec", type := some DataTypes.NUMBER }]
     ])
  , ("editable",
     [ createIntrinsicMethod "clear"
         "Clears the entered text from this element, if any."
     , createIntrinsicMethod "clearAndType"
         "Clears the entered text from this element, if any, and types the specified text."
         DataTypes.VOID
         [{ name := "text", type := some DataTypes.STRING }]
     , createIntrinsicMethod "press"
         "Simulates pressing of a single key on this element."
         DataTypes.VOID
         [{ name := "key", type := some DataTypes.STRING }]
     , createIntrinsicMethod "setText"
         "Simulates typing the specified text into this element."
         DataTypes.VOID
         [{ name := "text", type := some DataTypes.STRING }]
     ])
  , ("draggable",
     [ createIntrinsicMethod "dragAndDrop"
         "Drags this element and drops it on another element."
         DataTypes.VOID
         [{ name := "element", type := some DataTypes.STRING }
         , { name := "durationSec", type := some DataTypes.NUMBER }]
     , createIntrinsicMethod "dragAndDropByOffset"
         "Drags this element to a coordinate offset."
         DataTypes.VOID
         [{ name := "offsetX", type := some DataTypes.NUMBER }
         , { name := "offsetY", type := some DataTypes.NUMBER }
         , { name := "durationSec", type := some DataTypes.NUMBER }]
     ])
  , ("list",
     [ createIntrinsicMethod "size"
         "Gets the number of items in a list of elements."
         DataTypes.NUMBER
     ])
  , ("element",
     [ createIntrinsicMethod "returnSelf" "" ])
  , ("document", [])
  , ("navigation", [])
  ]

/-- Flattened intrinsic scan of processStep: Object.values of the catalog,
flat-mapped and filtered by method name. -/
def intrinsicByName (apName : String) : List Intrinsic :=
  (intrinsicMethods.map (fun g => g.2.filter (fun m => m.name = apName))).flatten

/-- PageObjectDatabase.processDescription: join the text array with blanks,
or undefined when there is no truthy text. -/
def processDescription : Option Desc → Option String
  | none => none
  | some d =>
    match d.text with
    | some l => some (String.intercalate " " l)
    | none => none

/-- PageObjectDatabase.getElementGetterMethodName. -/
def getElementGetterMethodName (elementName : String) : String :=
  "get" ++ (String.mk (elementName.data.take 1)).toUpper ++ String.mk (elementName.data.drop 1)

/-- Keys of the definition set, for the hasOwnProperty category test. -/
def defsHasKey (defs : Defs) (k : String) : Bool :=
  (alookup k defs).isSome

/-- PageObjectDatabase.processElementObject.  Returns the element descriptor
together with the grown elementArgs array (the JS code pushes into the array
it was handed, and the descriptor aliases that same array). -/
def processElementObject (defs : Defs) (elementObject : ElementDef)
    (parentName : Option String) (elementArgs : List Arg)
    (isInShadowRoot : Bool) : ElemDesc × List Arg :=
  let selector : Selector :=
    match elementObject.selector with
    | some s => if strTruthy s.css then s else {}
    | none => {}
  let elementName := getElementGetterMethodName elementObject.name
  let argsWithSel :=
    match selector.args with
    | some sargs => elementArgs ++ sargs
    | none => elementArgs
  let argsWithFilter :=
    if selector.returnAll then
      match elementObject.filter with
      | some f =>
        match f.matcher with
        | some m =>
          match m.args with
          | some margs => argsWithSel ++ margs
          | none => argsWithSel
        | none => argsWithSel
      | none => argsWithSel
    else argsWithSel
  let returnsList :=
    selector.returnAll ||
      (match elementObject.filter with
       | some f => f.findFirst
       | none => false)
  let category :=
    match elementObject.type with
    | some (.str s) =>
      if s = DataTypes.CONTAINER then DataTypes.CONTAINER
      else if defsHasKey defs s then DataTypes.PAGE_OBJECT
      else DataTypes.BASIC
    | _ => DataTypes.BASIC
  let description := processDescription elementObject.description
  ({ name := some elementObject.name
     displayName := some elementName
     description := description
     effectiveArgs := some argsWithFilter
     type := elementObject.type
     category := some category
     selector := some selector
     returnsList := returnsList
     filter := elementObject.filter
     parent := parentName
     pub := elementObject.pub
     isInShadowRoot := isInShadowRoot }, argsWithFilter)

/-- PageObjectDatabase.processElements, fueled to keep the nested tree
recursion kernel-reducible.  The fuel bounds the tree depth; any fuel at
least the depth of the element tree gives the JS behaviour.  Walks the
elements list of a fragment, then its shadow elements list, storing each
descriptor under its name and descending with the grown argument list. -/
def procElemList (fuel : Nat) (defs : Defs) (parentName : Option String)
    (parentArgs : List Arg) (isInShadowRoot : Bool) :
    List ElementDef → List (String × ElemDesc) → List (String × ElemDesc)
  | [], acc => acc
  | e :: rest, acc =>
    match fuel with
    | 0 => acc
    | n + 1 =>
      let (processedElement, elementArgs) :=
        processElementObject defs e parentName parentArgs isInShadowRoot
      let acc1 := upsert e.name processedElement acc
      let acc2 := procElemList n defs (some e.name) elementArgs false e.elements acc1
      let acc3 := procElemList n defs (some e.name) elementArgs true e.shadowElements acc2
      procElemList n defs parentName parentArgs isInShadowRoot rest acc3

/-- PageObjectDatabase.processElements at fragment level: the light elements
list first, then the shadow elements list. -/
def processElements (fuel : Nat) (defs : Defs) (parentName : Option String)
    (parentArgs : List Arg) (elements shadowElements : List ElementDef)
    (acc : List (String × ElemDesc)) : List (String × ElemDesc) :=
  procElemList fuel defs parentName parentArgs true shadowElements
    (procElemList fuel defs parentName parentArgs false elements acc)

/-- First index of a method with the given name, as the while-loop scan in
processStep. -/
def findMethodIdx (methods : List MethodDef) (apName : String) : Option Nat :=
  (methods.findIdx? (fun m => m.name = apName))

/-- Replacement of the raw args array of the method at an index, modelling
the in-place growth of that array performed by processMethod. -/
def updateMethodArgs (ms : List MethodDef) (i : Nat) (a : List Arg) : List MethodDef :=
  match ms.get? i with
  | some m => ms.set i { m with args := some a }
  | none => ms

/-- Update of the first definition entry with a given URI. -/
def updateDefEntry : Defs → String → (PageObjectDef → PageObjectDef) → Defs
  | [], _, _ => []
  | (k, v) :: rest, uri, f =>
    if k = uri then (k, f v) :: rest else (k, v) :: updateDefEntry rest uri f

/-- Mutable locals of the forEach loop over method steps in processMethod:
the methodType string while it is still the declared-type string, the
inferred return type of the last step, the last apply name, the referenced
elements collected so far, the owning parsed page object, and the
definition set (whose raw method args arrays can grow). -/
structure LoopSt where
  mtStr : String
  lastRT : TypeDecl
  lastApply : String
  refElems : List ElemDesc
  parsed : Parsed
  defs : Defs

/-- Result object of processStep. -/
structure StepInfo where
  referencedElements : List ElemDesc := []
  returnType : TypeDecl := .str ""
  returnsList : Bool := false
deriving Repr, DecidableEq

/-- Request shapes of the mutually recursive resolver functions. -/
inductive Req where
  | parse (uri : String) (defs : Defs)
  | pmethods (uri : String) (idxs : List Nat) (defs : Defs) (parsed : Parsed)
  | pmethod (uri : String) (m : MethodDef) (midx : Option Nat) (defs : Defs) (parsed : Parsed)
  | sloop (uri : String) (mret : Option String) (steps : List StepDef) (ls : LoopSt)
  | sbody (uri : String) (mret : Option String) (stepUri : String) (stepParsed : Parsed)
          (isChain : Bool) (step : StepDef) (ls : LoopSt)
  | pstep (uri : String) (step : StepDef) (defs : Defs) (parsed : Parsed)

/-- Return type of each resolver request. -/
def Ret : Req → Type
  | .parse _ _ => Parsed × Defs × WLog
  | .pmethods _ _ _ _ => Parsed × Defs × WLog
  | .pmethod _ _ _ _ _ => MethodDesc × Parsed × Defs × WLog
  | .sloop _ _ _ _ => LoopSt × WLog
  | .sbody _ _ _ _ _ _ _ => LoopSt × WLog
  | .pstep _ _ _ _ => StepInfo × Parsed × Defs × WLog

/-- Recursive-call signature handed to each resolver branch body: the
interpreter at one unit less fuel. -/
abbrev RunRec := (r : Req) → JsRes (Ret r)

/-- Body of PageObjectDatabase.parsePageObject. -/
def parseFn (rec : RunRec) (fuel : Nat) (uri : String) (defs : Defs) :
    JsRes (Parsed × Defs × WLog) :=
  match alookup uri defs with
  | none => .err
  | some po =>
    let parsed0 : Parsed := { uri := uri, source := po.source }
    let parsed1 :=
      match po.selector with
      | some _ =>
        let rootElement : ElementDef :=
          .mk DataTypes.ROOT (some (.str uri)) po.selector none false none [] []
        let rootDesc := (processElementObject defs rootElement none [] false).1
        { parsed0 with elements := upsert DataTypes.ROOT rootDesc parsed0.elements }
      | none => parsed0
    let parsed2 := { parsed1 with
      author := po.description.bind (fun d => d.author),
      description := processDescription po.description }
    let parsed3 := { parsed2 with
      elements := processElements fuel defs none [] po.elements po.shadowElements
        parsed2.elements }
    JsRes.bind (rec (.pmethods uri (List.range po.methods.length) defs parsed3))
      fun (p4, defs4, log1) =>
    .ok (p4, defs4, log1 ++ [(uri, p4)])

/-- Body of PageObjectDatabase.processMethods over the remaining indices. -/
def processMethodsFn (rec : RunRec) (uri : String) (idxs : List Nat) (defs : Defs)
    (parsed : Parsed) : JsRes (Parsed × Defs × WLog) :=
  match idxs with
  | [] => .ok (parsed, defs, [])
  | i :: rest =>
    match alookup uri defs with
    | none => .err
    | some po =>
      match po.methods.get? i with
      | none => .err
      | some m =>
        JsRes.bind (rec (.pmethod uri m (some i) defs parsed))
          fun (md, parsed1, defs1, log1) =>
        JsRes.bind (rec (.pmethods uri rest defs1
            { parsed1 with methods := upsert m.name md parsed1.methods }))
          fun (p2, d2, log2) =>
        .ok (p2, d2, log1 ++ log2)

/-- Body of PageObjectDatabase.processMethod. -/
def processMethodFn (rec : RunRec) (uri : String) (m : MethodDef) (midx : Option Nat)
    (defs : Defs) (parsed : Parsed) : JsRes (MethodDesc × Parsed × Defs × WLog) :=
  match alookup m.name parsed.methods with
  | some d => .ok (d, parsed, defs, [])
  | none =>
    let args0 := m.args.getD []
    let mtStr := strOr m.returnType ""
    if mtStr = "" then
      JsRes.bind (rec (.sloop uri m.ret (m.compose.getD [])
          ⟨mtStr, .str "", "", [], parsed, defs⟩)) fun (ls, log1) =>
      let argsF := args0 ++ (ls.refElems.map (fun re =>
          match re.effectiveArgs with
          | some l => if l.length ≠ 0 then l else []
          | none => [])).flatten
      let defsF :=
        match m.args, midx with
        | some _, some i =>
          updateDefEntry ls.defs uri
            (fun po => { po with methods := updateMethodArgs po.methods i argsF })
        | _, _ => ls.defs
      .ok ({ displayName := m.name, name := m.name,
             description := processDescription m.description,
             effectiveArgs := argsF, category := DataTypes.METHOD,
             type := ls.lastRT, pub := true,
             lastStepApply := ls.lastApply, elements := ls.refElems },
           ls.parsed, defsF, log1)
    else
      .ok ({ displayName := m.name, name := m.name,
             description := processDescription m.description,
             effectiveArgs := args0, category := DataTypes.METHOD,
             type := .str mtStr, pub := true,
             lastStepApply := "", elements := [] },
           parsed, defs, [])

/-- Body of the forEach loop of processMethod over the remaining steps. -/
def stepLoopFn (rec : RunRec) (uri : String) (mret : Option String)
    (steps : List StepDef) (ls : LoopSt) : JsRes (LoopSt × WLog) :=
  match steps with
  | [] => .ok (ls, [])
  | step :: rest =>
    if step.chain = true ∧ ls.lastRT ≠ TypeDecl.str "" then
      let key := tdKey ls.lastRT
      match alookup key ls.defs with
      | none =>
        -- the JS logs an abort message and returns from the forEach
        -- callback, which only skips this iteration: remaining steps run
        rec (.sloop uri mret rest ls)
      | some _ =>
        JsRes.bind (rec (.parse key ls.defs)) fun (p2, defs2, logA) =>
        JsRes.bind (rec (.sbody uri mret key p2 true step { ls with defs := defs2 }))
          fun (ls2, logB) =>
        JsRes.bind (rec (.sloop uri mret rest ls2)) fun (ls3, logC) =>
        .ok (ls3, logA ++ logB ++ logC)
    else
      JsRes.bind (rec (.sbody uri mret uri ls.parsed false step ls)) fun (ls2, logB) =>
      JsRes.bind (rec (.sloop uri mret rest ls2)) fun (ls3, logC) =>
      .ok (ls3, logB ++ logC)

/-- Body of one iteration of the forEach loop of processMethod, after the
chain pivot has selected the page object the step is interpreted against. -/
def stepBodyFn (rec : RunRec) (mret : Option String) (stepUri : String)
    (stepParsed : Parsed) (isChain : Bool) (step : StepDef) (ls : LoopSt) :
    JsRes (LoopSt × WLog) :=
  let extPair :=
    if strTruthy step.applyExternal then
      if ls.mtStr = "" then (strOr mret DataTypes.VOID, step.applyExternal.getD "")
      else (ls.mtStr, ls.lastApply)
    else (ls.mtStr, ls.lastApply)
  let la2 := if strTruthy step.apply then step.apply.getD "" else extPair.2
  JsRes.bind (rec (.pstep stepUri step ls.defs stepParsed))
    fun (si, parsedS, defs2, log1) =>
  let lastRT :=
    match step.returnType with
    | some rt => if rt ≠ "" then TypeDecl.str rt else si.returnType
    | none => si.returnType
  let newRefs := ls.refElems ++ si.referencedElements.filter
      (fun e => ! ls.refElems.any (fun r => r.name == e.name))
  .ok ({ mtStr := extPair.1, lastRT := lastRT, lastApply := la2, refElems := newRefs,
         parsed := if isChain then ls.parsed else parsedS, defs := defs2 }, log1)

/-- The element-reference block of processStep: the step info before the
apply handling, holding the referenced element (with the container type
override) and its type as the step return type. -/
def stepElementInfo (step : StepDef) (parsed : Parsed) : StepInfo :=
  if strTruthy step.element ∧ step.element ≠ some DataTypes.ROOT then
    if step.element = some DataTypes.DOCUMENT then
      { returnType := .str DataTypes.DOCUMENT }
    else if step.element = some DataTypes.NAVIGATION then
      { returnType := .str DataTypes.NAVIGATION }
    else
      let base := (alookup (step.element.getD "") parsed.elements).getD {}
      let hasPOArg : Bool :=
        match step.args with
        | some (a0 :: _) => strTruthy a0.type && (a0.type == some DataTypes.PAGE_OBJECT)
        | _ => false
      let refE :=
        if base.category = some DataTypes.CONTAINER ∧ hasPOArg = true then
          { base with type :=
              (match step.args with
               | some (a0 :: _) => a0.value.map TypeDecl.str
               | _ => base.type) }
        else base
      { referencedElements := [refE],
        returnType := tdOr refE.type (.str DataTypes.BASIC),
        returnsList := refE.returnsList }
  else {}

/-- Body of PageObjectDatabase.processStep. -/
def processStepFn (rec : RunRec) (uri : String) (step : StepDef) (defs : Defs)
    (parsed : Parsed) : JsRes (StepInfo × Parsed × Defs × WLog) :=
  if strTruthy step.applyExternal then
    .ok ({ referencedElements := [], returnType := .str DataTypes.VOID,
           returnsList := false }, parsed, defs, [])
  else
    let si1 : StepInfo := stepElementInfo step parsed
    if strTruthy step.apply then
      let ap := step.apply.getD ""
      if ap = "waitFor" then
        match step.args with
        | some (a0 :: _) =>
          let waitForMethod : MethodDef :=
            { name := "tempWaitForMethod", compose := some (a0.predicate.getD []) }
          JsRes.bind (rec (.pmethod uri waitForMethod none defs parsed))
            fun (md, parsed1, defs1, log1) =>
          .ok ({ si1 with
                 referencedElements := si1.referencedElements ++ md.elements,
                 returnType := md.type }, parsed1, defs1, log1)
        | _ => .err
      else if strTruthy step.element = false then
        if ap = "returnSelf" then
          .ok ({ si1 with returnType := .str DataTypes.VOID }, parsed, defs, [])
        else
          match alookup ap parsed.methods with
          | some pm =>
            .ok ({ si1 with
                   referencedElements := si1.referencedElements ++ pm.elements,
                   returnType := pm.type }, parsed, defs, [])
          | none =>
            match alookup uri defs with
            | none => .err
            | some po =>
              match findMethodIdx po.methods ap with
              | some i =>
                match po.methods.get? i with
                | some calledMethod =>
                  JsRes.bind (rec (.pmethod uri calledMethod (some i) defs parsed))
                    fun (md, parsed1, defs1, log1) =>
                  .ok ({ si1 with returnType := md.type },
                       { parsed1 with methods := upsert calledMethod.name md parsed1.methods },
                       defs1, log1)
                | none => .err
              | none => .ok (si1, parsed, defs, [])
      else
        match intrinsicByName ap with
        | c :: _ => .ok ({ si1 with returnType := .str c.type }, parsed, defs, [])
        | [] => .ok (si1, parsed, defs, [])
    else .ok (si1, parsed, defs, [])

/-- Fuel-indexed interpreter for the mutually recursive resolver of
PageObjectDatabase: parsePageObject, processMethods, processMethod, the
forEach loop over method steps (with its per-step body), and processStep.
Every call consumes one unit of fuel, making the recursion structural;
fuelOut at every fuel models a JS execution that recurses without bound. -/
def run : (fuel : Nat) → (r : Req) → JsRes (Ret r)
  | 0, _ => .fuelOut
  | n + 1, .parse uri defs => parseFn (run n) (n + 1) uri defs
  | n + 1, .pmethods uri idxs defs parsed => processMethodsFn (run n) uri idxs defs parsed
  | n + 1, .pmethod uri m midx defs parsed => processMethodFn (run n) uri m midx defs parsed
  | n + 1, .sloop uri mret steps ls => stepLoopFn (run n) uri mret steps ls
  | n + 1, .sbody _uri mret stepUri stepParsed isChain step ls =>
    stepBodyFn (run n) mret stepUri stepParsed isChain step ls
  | n + 1, .pstep uri step defs parsed => processStepFn (run n) uri step defs parsed

/-- PageObjectDatabase.parsePageObject. -/
def parsePageObject (fuel : Nat) (uri : String) (defs : Defs) :
    JsRes (Parsed × Defs × WLog) :=
  run fuel (.parse uri defs)

/-- PageObjectDatabase.processMethods over the remaining method indices. -/
def processMethods (fuel : Nat) (uri : String) (idxs : List Nat) (defs : Defs)
    (parsed : Parsed) : JsRes (Parsed × Defs × WLog) :=
  run fuel (.pmethods uri idxs defs parsed)

/-- PageObjectDatabase.processMethod. -/
def processMethod (fuel : Nat) (uri : String) (m : MethodDef) (midx : Option Nat)
    (defs : Defs) (parsed : Parsed) : JsRes (MethodDesc × Parsed × Defs × WLog) :=
  run fuel (.pmethod uri m midx defs parsed)

/-- The forEach loop of processMethod over the remaining compose steps. -/
def stepLoop (fuel : Nat) (uri : String) (mret : Option String) (steps : List StepDef)
    (ls : LoopSt) : JsRes (LoopSt × WLog) :=
  run fuel (.sloop uri mret steps ls)

/-- One iteration body of the forEach loop of processMethod, after the
chain pivot has selected the page object the step is interpreted against. -/
def stepBody (fuel : Nat) (uri : String) (mret : Option String) (stepUri : String)
    (stepParsed : Parsed) (isChain : Bool) (step : StepDef) (ls : LoopSt) :
    JsRes (LoopSt × WLog) :=
  run fuel (.sbody uri mret stepUri stepParsed isChain step ls)

/-- PageObjectDatabase.processStep. -/
def processStep (fuel : Nat) (uri : String) (step : StepDef) (defs : Defs)
    (parsed : Parsed) : JsRes (StepInfo × Parsed × Defs × WLog) :=
  run fuel (.pstep uri step defs parsed)

/-- Shallow DOM node: the CSS selector strings this node matches (CSS
matching itself is abstracted), text content, title, named properties,
attributes, an optional shadow root fragment, and child nodes in document
order.  Light-DOM queries do not descend into shadow roots, matching the
browser. -/
inductive Dom where
  | mk (sels : List String) (text title : String)
       (props attrs : List (String × String))
       (shadow : Option Dom) (children : List Dom)

def Dom.sels : Dom → List String
  | .mk s _ _ _ _ _ _ => s

def Dom.text : Dom → String
  | .mk _ t _ _ _ _ _ => t

def Dom.title : Dom → String
  | .mk _ _ t _ _ _ _ => t

def Dom.props : Dom → List (String × String)
  | .mk _ _ _ p _ _ _ => p

def Dom.attrs : Dom → List (String × String)
  | .mk _ _ _ _ a _ _ => a

def Dom.shadow : Dom → Option Dom
  | .mk _ _ _ _ _ sh _ => sh

def Dom.children : Dom → List Dom
  | .mk _ _ _ _ _ _ c => c

/-- All nodes of a forest in document (pre-)order, fueled to keep the nested
recursion structural; any fuel at least the total node count gives the full
list. -/
def domDescList (fuel : Nat) : List Dom → List Dom
  | [] => []
  | d :: rest =>
    match fuel with
    | 0 => []
    | n + 1 => d :: (domDescList n d.children ++ domDescList n rest)

/-- Element.querySelectorAll: descendants of the node, in document order,
matching the selector. -/
def querySelectorAll (fuel : Nat) (d : Dom) (css : String) : List Dom :=
  (domDescList fuel d.children).filter (fun e => e.sels.contains css)

/-- Element.querySelector. -/
def querySelector (fuel : Nat) (d : Dom) (css : String) : Option Dom :=
  (querySelectorAll fuel d css).head?

/-- Filter information object built by ElementFinder.getFilterInfo. -/
structure FilterInfo where
  apply : Option String := none
  matcherType : Option String := none
  args : List Arg := []
  findFirst : Bool := false
  attrName : String := ""
  additionalElements : List ElemDesc := []
deriving Repr, DecidableEq

/-- The currentDescriptor local of getFilterInfo, which starts as an element
descriptor and may become a method descriptor while following the apply
chain. -/
inductive CurDesc where
  | el (e : ElemDesc)
  | md (m : MethodDesc)
deriving Repr, DecidableEq

def CurDesc.typeOf : CurDesc → Option TypeDecl
  | .el e => e.type
  | .md m => some m.type

def CurDesc.lastStepApplyOf : CurDesc → Option String
  | .el _ => none
  | .md m => some m.lastStepApply

/-- Resolver closure handed to ElementFinder: a parsed page-object lookup
(in the extension it is pageObjectDb.getPageObject). -/
abbrev POResolver := String → Option Parsed

/-- The while loop of getFilterInfo following the apply chain across
page-object-typed descriptors. -/
def filterWalk (fuel : Nat) (resolver : POResolver) :
    Option CurDesc → String → JsRes (CurDesc × String)
  | cur, effectiveApply =>
    match fuel with
    | 0 => .fuelOut
    | n + 1 =>
      match cur with
      | none => .err
      | some c =>
        match c.typeOf with
        | some t =>
          if tdTruthy t && tdIncludesSlash t then
            match resolver (tdKey t) with
            | none => .err
            | some p =>
              match alookup effectiveApply p.methods with
              | some m => filterWalk n resolver (some (.md m)) m.lastStepApply
              | none => filterWalk n resolver ((alookup effectiveApply p.elements).map .el)
                  effectiveApply
          else .ok (c, effectiveApply)
        | none => .ok (c, effectiveApply)

/-- ElementFinder.getFilterInfo.  The descriptors built by
PageObjectDatabase never carry an elementAttribute property, so the JS read
currentDescriptor.elementAttribute is always undefined and the attribute
field is always the empty string. -/
def getFilterInfo (fuel : Nat) (resolver : POResolver) (desc : ElemDesc)
    (args : List Arg) : JsRes (Option FilterInfo) :=
  match desc.selector, desc.filter with
  | some sel, some f =>
    if sel.returnAll = true then
      if strTruthy f.apply then
        JsRes.bind (filterWalk fuel resolver (some (.el desc)) (f.apply.getD ""))
          fun (c, _) =>
        JsRes.bind
          (match c with
           | .md m => .ok (if m.category = DataTypes.METHOD then m.elements else [])
           | .el e => if e.category = some DataTypes.METHOD then .err else .ok [])
          fun additionalElements =>
        match f.matcher with
        | none => .err
        | some m =>
          match m.args with
          | none => .err
          | some margs =>
            let matcherArgNames := margs.map Arg.name
            let filteredArgs := args.filter
              (fun a => matcherArgNames.contains a.name && strTruthy a.value)
            .ok (some { apply := c.lastStepApplyOf, matcherType := m.type,
                        args := filteredArgs, findFirst := f.findFirst,
                        attrName := "", additionalElements := additionalElements })
      else .ok none
    else .ok none
  | _, _ => .ok none

/-- JS strict equality between a string-or-null-or-undefined candidate and
the filter value: true only when both are strings and equal. -/
def jsStrictEq : Option String → Option String → Bool
  | some a, some b => a = b
  | _, _ => false

/-- Evaluation of the filter predicate of ElementFinder.filterElements on
one matched DOM element: descend through the additional elements, read the
candidate value per the terminal apply operation, and compare with the
declared matcher.  err models the TypeError JS throws when a null node is
dereferenced; an unknown apply leaves the candidate empty and an unknown
matcher makes the callback return undefined, dropping the element. -/
def evalOneFilter (fuel : Nat) (fi : FilterInfo) (filterValue : Option String)
    (el : Dom) : JsRes Bool :=
  JsRes.bind
    (fi.additionalElements.foldl
      (fun acc ae => JsRes.bind acc (fun cur =>
        match ae.selector with
        | some s =>
          if strTruthy s.css then
            match cur with
            | none => .err
            | some c => .ok (querySelector fuel c (s.css.getD ""))
          else .ok cur
        | none => .ok cur)) (.ok (some el)))
    fun eff =>
  JsRes.bind
    (match fi.apply with
     | some "getText" =>
       match eff with
       | none => .err
       | some e => .ok (some e.text)
     | some "getTitle" =>
       match eff with
       | none => .err
       | some e => .ok (some e.title)
     | some "getAttribute" =>
       if fi.attrName ≠ "" then
         match eff with
         | none => .err
         | some e => .ok ((alookup fi.attrName e.props).orElse
             (fun _ => alookup fi.attrName el.attrs))
       else .ok (some "")
     | _ => .ok (some ""))
    fun candidate =>
  match fi.matcherType with
  | some "stringEquals" => .ok (jsStrictEq candidate filterValue)
  | some "stringContains" =>
    match candidate with
    | none => .err
    | some c => .ok (containsSub c (filterValue.getD "undefined"))
  | _ => .ok false

/-- The Array.filter pass of ElementFinder.filterElements, keeping the
elements whose predicate evaluates to true (a crash on any element aborts
the whole filter call, as a thrown TypeError would). -/
def passingElements (fuel : Nat) (fi : FilterInfo) (filterValue : Option String) :
    List Dom → JsRes (List Dom)
  | [] => .ok []
  | e :: rest =>
    JsRes.bind (evalOneFilter fuel fi filterValue e) fun b =>
    JsRes.bind (passingElements fuel fi filterValue rest) fun l =>
    .ok (if b then e :: l else l)

/-- The set of apply operations whose filter value comes from the bound
argument. -/
def filterableApplyMethods : List String := ["getText", "getTitle", "getAttribute"]

/-- ElementFinder.filterElements. -/
def filterElements (fuel : Nat) (elements : List Dom) (fi : Option FilterInfo) :
    JsRes (List Dom) :=
  match fi with
  | none => .ok []
  | some f =>
    match elements, f.args with
    | [], _ => .ok []
    | _, [] => .ok []
    | _ :: _, a0 :: _ =>
      let filterable :=
        match f.apply with
        | some a => filterableApplyMethods.contains a
        | none => false
      let filterValue := if filterable then a0.value else some ""
      JsRes.bind (passingElements fuel f filterValue elements) fun filtered =>
      .ok (if f.findFirst = true ∧ filtered.length ≠ 0 then filtered.take 1 else filtered)

/-- Positional %d and %s markers of a selector template, left to right. -/
def findMarkers : List Char → List String
  | [] => []
  | '%' :: 'd' :: rest => "%d" :: findMarkers rest
  | '%' :: 's' :: rest => "%s" :: findMarkers rest
  | _ :: rest => findMarkers rest

/-- The marker substitution loop of ElementFinder.getElement: each marker is
replaced, first occurrence first, by the value of the argument at the same
position when that value is truthy. -/
def substituteMarkers (s : String) (markers : List String) (args : List Arg) : String :=
  (markers.enum).foldl
    (fun acc im =>
      match args.get? im.1 with
      | some a => if strTruthy a.value then replaceFirst acc im.2 (a.value.getD "") else acc
      | none => acc) s

/-- ElementFinder.getElement.  Returns the located element together with the
content of the argument array object it was handed after the in-place
splice of the consumed entries. -/
def getElement (fuel : Nat) (desc : ElemDesc) (args : List Arg)
    (fi : Option FilterInfo) (parentNode : Option Dom) :
    JsRes (Option Dom × List Arg) :=
  match parentNode with
  | none => .ok (none, args)
  | some p =>
    match desc.selector with
    | none => .err
    | some sel =>
      if strTruthy sel.css = false then .ok (none, args)
      else
        let s0 := sel.css.getD ""
        let markers := findMarkers s0.data
        let substituted :=
          if markers.length ≠ 0 ∧ args.length ≠ 0 then
            (substituteMarkers s0 markers args, args.drop markers.length)
          else (s0, args)
        let elems :=
          if containsSub substituted.1 "%" then []
          else if desc.isInShadowRoot = true then
            match p.shadow with
            | some sh => querySelectorAll fuel sh substituted.1
            | none => querySelectorAll fuel p substituted.1
          else querySelectorAll fuel p substituted.1
        if sel.returnAll = true ∧ desc.filter.isSome then
          JsRes.bind (filterElements fuel elems fi) fun filtered =>
          let elems2 := if filtered.length ≠ 0 then filtered else elems
          .ok (elems2.head?, substituted.2)
        else .ok (elems.head?, substituted.2)

/-- Member descriptor handed to walkElements: the category tag distinguishes
the method walk from the element walk. -/
inductive MemberDesc where
  | el (e : ElemDesc)
  | md (m : MethodDesc)

/-- State of the walkElements locals: the current DOM element, the content
of the local args variable, whether that variable still aliases the array
object the caller passed in (Array.slice breaks the alias), and the content
of the caller array object. -/
structure WalkSt where
  currentElement : Option Dom
  cur : List Arg
  aliased : Bool
  callerAfter : List Arg

/-- The forEach loop of walkElements over the referenced elements of a
method descriptor. -/
def walkMethodRefs (fuel : Nat) (resolver : POResolver) :
    List ElemDesc → WalkSt → JsRes WalkSt
  | [], st => .ok st
  | re :: rest, st =>
    match re.effectiveArgs with
    | some eff =>
      let inter := st.cur.take eff.length
      let newCur := st.cur.drop eff.length
      JsRes.bind (getFilterInfo fuel resolver re inter) fun fi =>
      JsRes.bind (getElement fuel re inter fi st.currentElement) fun (el, _) =>
      walkMethodRefs fuel resolver rest
        { currentElement := el, cur := newCur, aliased := false,
          callerAfter := st.callerAfter }
    | none =>
      JsRes.bind (getFilterInfo fuel resolver re st.cur) fun fi =>
      JsRes.bind (getElement fuel re st.cur fi st.currentElement) fun (el, after) =>
      walkMethodRefs fuel resolver rest
        { currentElement := el, cur := after, aliased := st.aliased,
          callerAfter := if st.aliased then after else st.callerAfter }

/-- The ancestor chain reconstruction of walkElements: follow parent names
through the sibling map up to the parentless element, root first.  The
returned path ends with the descriptor of the given name. -/
def buildPath (fuel : Nat) (siblings : List (String × ElemDesc)) (name : String) :
    JsRes (List ElemDesc) :=
  match fuel with
  | 0 => .fuelOut
  | n + 1 =>
    match alookup name siblings with
    | none => .err
    | some pd =>
      if strTruthy pd.parent then
        JsRes.bind (buildPath n siblings (pd.parent.getD "")) fun front =>
        .ok (front ++ [pd])
      else .ok [pd]

/-- The forEach loop of walkElements over the ancestor path: an ancestor
whose selector declares an args property consumes its prefix of the
argument list and is resolved; an ancestor without one is skipped entirely
(its node is never resolved). -/
def walkSegs (fuel : Nat) (resolver : POResolver) :
    List ElemDesc → WalkSt → JsRes WalkSt
  | [], st => .ok st
  | seg :: rest, st =>
    match seg.selector with
    | none => .err
    | some sel =>
      match sel.args with
      | some sargs =>
        let segArgs := st.cur.take sargs.length
        let newCur := st.cur.drop sargs.length
        JsRes.bind (getFilterInfo fuel resolver seg newCur) fun fi =>
        JsRes.bind (getElement fuel seg segArgs fi st.currentElement) fun (el, _) =>
        walkSegs fuel resolver rest
          { currentElement := el, cur := newCur, aliased := false,
            callerAfter := st.callerAfter }
      | none => walkSegs fuel resolver rest st

/-- ElementFinder.walkElements.  Returns the located element together with
the content of the argument array object the caller passed in after the
walk (the frame effect of the in-place splices). -/
def walkElements (fuel : Nat) (resolver : POResolver) (parentElement : Option Dom)
    (member : MemberDesc) (args : List Arg)
    (siblings : List (String × ElemDesc)) : JsRes (Option Dom × List Arg) :=
  let st0 : WalkSt :=
    { currentElement := parentElement, cur := args, aliased := true, callerAfter := args }
  match member with
  | .md m =>
    JsRes.bind (walkMethodRefs fuel resolver m.elements st0) fun st =>
    .ok (st.currentElement, st.callerAfter)
  | .el e =>
    JsRes.bind
      (if strTruthy e.parent then
        JsRes.bind (buildPath fuel siblings (e.parent.getD "")) fun path =>
        walkSegs fuel resolver path st0
      else .ok st0)
      fun st =>
    JsRes.bind (getFilterInfo fuel resolver e st.cur) fun fi =>
    JsRes.bind (getElement fuel e st.cur fi st.currentElement) fun (el, after) =>
    .ok (el, if st.aliased then after else st.callerAfter)

/-- Lexicographic (code-unit) strict order on char lists, as the default JS
Array.sort string comparison. -/
def chLexLt : List Char → List Char → Bool
  | [], [] => false
  | [], _ :: _ => true
  | _ :: _, [] => false
  | a :: as, b :: bs =>
    if a.toNat < b.toNat then true
    else if b.toNat < a.toNat then false
    else chLexLt as bs

/-- Non-strict lexicographic order on strings. -/
def jsStrLe (a b : String) : Bool :=
  ! chLexLt b.data a.data

/-- Stable insertion into a sorted list. -/
def insertSorted (x : String) : List String → List String
  | [] => [x]
  | y :: rest => if jsStrLe x y then x :: y :: rest else y :: insertSorted x rest

/-- Default JS Array.sort on an array of strings (any correct sort agrees on
strings, where equal keys are identical). -/
def sortStrings (l : List String) : List String :=
  l.foldr insertSorted []

/-- The parse loop of reloadDatabase over all definition URIs. -/
def parseAllLoop (fuel : Nat) : List String → Defs → WLog → JsRes (Defs × WLog)
  | [], defs, log => .ok (defs, log)
  | u :: rest, defs, log =>
    JsRes.bind (parsePageObject fuel u defs) fun pr =>
    parseAllLoop fuel rest pr.2.1 (log ++ pr.2.2)

/-- Replay of the logged cache writes, in order, onto the empty cache. -/
def cacheOf (log : WLog) : List (String × Parsed) :=
  log.foldl (fun c kv => upsert kv.1 kv.2 c) []

/-- PageObjectDatabase.reloadDatabase.  The Settings collaborator and the
JSON text are external; the input is the loaded artifact list, each artifact
carrying its page-object definitions keyed by URI in insertion order.
Returns the count (the number of cached parsed page objects), the sorted
root URI list, the definition set after parsing (raw method args arrays may
have grown), and the cache write log.  The load loop of reloadDatabase is
split out: it folds every artifact's definitions into the allPageObjects
object (later artifacts override by upsert) while pushing each URI whose
definition at that moment declares root and a selector css. -/
def loadFold (artifacts : List (String × List (String × PageObjectDef))) :
    Defs × List String :=
  artifacts.foldl
    (fun acc art => art.2.foldl
      (fun (acc2 : Defs × List String) kv =>
        (upsert kv.1 kv.2 acc2.1,
         if kv.2.root = true ∧ strTruthy (kv.2.selector.bind Selector.css)
         then acc2.2 ++ [kv.1] else acc2.2))
      acc)
    (([], []) : Defs × List String)

def reloadDatabase (fuel : Nat)
    (artifacts : List (String × List (String × PageObjectDef))) :
    JsRes (Nat × List String × Defs × WLog) :=
  let loaded := loadFold artifacts
  let roots := sortStrings loaded.2
  JsRes.bind (parseAllLoop fuel (loaded.1.map Prod.fst) loaded.1 []) fun pr =>
  .ok ((cacheOf pr.2).length, roots, pr.1, pr.2)

/-- The processed selector object of an element definition: a copy of the
raw selector when it has a truthy css, the empty object otherwise. -/
def procSelector (e : ElementDef) : Selector :=
  match e.selector with
  | some s => if strTruthy s.css then s else {}
  | none => {}

/-- Arguments one element contributes to its own effective-argument list
and to its descendants: its processed selector args, followed by its filter
matcher args when the processed selector requests returnAll and the filter
declares matcher args. -/
def ownContrib (e : ElementDef) : List Arg :=
  (procSelector e).args.getD [] ++
    (if (procSelector e).returnAll then
      match e.filter with
      | some f =>
        match f.matcher with
        | some m => m.args.getD []
        | none => []
      | none => []
    else [])

/-- Element-tree walk written from the amended specification words: the
stored descriptor of an element whose ancestor contribution lists are A has
effective arguments equal to the concatenation of A in root-to-leaf order
followed by its own contribution, and both child branches extend A by that
own contribution while siblings share A unchanged. -/
def specElemList (fuel : Nat) (defs : Defs) (parentName : Option String)
    (ancestors : List (List Arg)) (isInShadowRoot : Bool) :
    List ElementDef → List (String × ElemDesc) → List (String × ElemDesc)
  | [], acc => acc
  | e :: rest, acc =>
    match fuel with
    | 0 => acc
    | n + 1 =>
      let desc := (processElementObject defs e parentName ancestors.flatten isInShadowRoot).1
      let acc1 := upsert e.name desc acc
      let acc2 := specElemList n defs (some e.name) (ancestors ++ [ownContrib e]) false
        e.elements acc1
      let acc3 := specElemList n defs (some e.name) (ancestors ++ [ownContrib e]) true
        e.shadowElements acc2
      specElemList n defs parentName ancestors isInShadowRoot rest acc3

/-- Ancestor-path walk written from the words of the walker specification:
every ancestor is resolved in root-first order, consuming a prefix of the
argument list sized to its own selector args (zero when it declares none),
and the target is then resolved against the final resolved node. -/
def walkSegsSpec (fuel : Nat) (resolver : POResolver) :
    List ElemDesc → WalkSt → JsRes WalkSt
  | [], st => .ok st
  | seg :: rest, st =>
    let segLen :=
      match seg.selector with
      | some sel => (sel.args.getD []).length
      | none => 0
    let segArgs := st.cur.take segLen
    let newCur := st.cur.drop segLen
    JsRes.bind (getFilterInfo fuel resolver seg newCur) fun fi =>
    JsRes.bind (getElement fuel seg segArgs fi st.currentElement) fun (el, _) =>
    walkSegsSpec fuel resolver rest
      { currentElement := el, cur := newCur, aliased := false,
        callerAfter := st.callerAfter }

/-- Element-category walk written from the words of the claim: rebuild the
ancestor chain, resolve every ancestor root-first, then resolve the target
against the final ancestor node. -/
def walkElementsSpec (fuel : Nat) (resolver : POResolver) (parentElement : Option Dom)
    (e : ElemDesc) (args : List Arg) (siblings : List (String × ElemDesc)) :
    JsRes (Option Dom × List Arg) :=
  let st0 : WalkSt :=
    { currentElement := parentElement, cur := args, aliased := true, callerAfter := args }
  JsRes.bind
    (if strTruthy e.parent then
      JsRes.bind (buildPath fuel siblings (e.parent.getD "")) fun path =>
      walkSegsSpec fuel resolver path st0
    else .ok st0)
    fun st =>
  JsRes.bind (getFilterInfo fuel resolver e st.cur) fun fi =>
  JsRes.bind (getElement fuel e st.cur fi st.currentElement) fun (el, after) =>
  .ok (el, if st.aliased then after else st.callerAfter)

/-- Root URI list written from the words of the claim: the lexicographically
sorted URIs whose raw definition in the loaded set declares root and a root
selector css. -/
def claimRootUris (defs : Defs) : List String :=
  sortStrings ((defs.filter
    (fun kv => kv.2.root && strTruthy (kv.2.selector.bind Selector.css))).map Prod.fst)

/-- Definition sets in which no method declares an args array (the raw
definition mutation of processMethod then never fires). -/
def noMethodArgsB (defs : Defs) : Bool :=
  defs.all (fun kv => kv.2.methods.all (fun m => m.args.isNone))

theorem alookup_mem {α : Type} {k : String} {l : List (String × α)} {v : α}
    (h : alookup k l = some v) : (k, v) ∈ l := by
  induction l with
  | nil => simp [alookup] at h
  | cons hd tl ih =>
    rw [alookup] at h
    obtain ⟨k1, v1⟩ := hd
    by_cases hk : k1 = k
    · rw [if_pos hk] at h
      cases h
      subst hk
      exact List.mem_cons_self _ _
    · rw [if_neg hk] at h
      exact List.mem_cons_of_mem _ (ih h)

theorem noMethodArgs_of_lookup {defs : Defs} {uri : String} {po : PageObjectDef}
    {i : Nat} {m : MethodDef}
    (hall : noMethodArgsB defs = true) (hpo : alookup uri defs = some po)
    (hm : po.methods.get? i = some m) : m.args = none := by
  have hmem : (uri, po) ∈ defs := alookup_mem hpo
  have h1 := (List.all_eq_true.mp hall) _ hmem
  have hmmem : m ∈ po.methods := List.get?_mem hm
  have h2 := (List.all_eq_true.mp h1) _ hmmem
  simpa [Option.isNone_iff_eq_none] using h2

/-- C8: a method declaring a non-empty explicit returnType is resolved
without walking its compose steps: the descriptor type is the declared
returnType, the referenced-elements list is empty, the effective arguments
are exactly the declared args, and neither the parsed page object nor the
definition set changes, whatever the compose array holds. -/
theorem C8_explicit_return_type_skips_steps
    (n : Nat) (uri : String) (m : MethodDef) (midx : Option Nat) (defs : Defs)
    (parsed : Parsed) (rt : String)
    (hmemo : alookup m.name parsed.methods = none)
    (hrt : m.returnType = some rt) (hne : rt ≠ "") :
    processMethod (n + 1) uri m midx defs parsed =
      .ok ({ displayName := m.name, name := m.name,
             description := processDescription m.description,
             effectiveArgs := m.args.getD [], category := DataTypes.METHOD,
             type := .str rt, pub := true, lastStepApply := "", elements := [] },
           parsed, defs, []) := by
  unfold processMethod
  simp only [run, processMethodFn, hmemo, hrt, strOr]
  simp [hne]

def c8m : MethodDef :=
  { name := "declared", returnType := some "string", args := some [{ name := "a" }],
    compose := some [.mk none none none none true none] }

def c8parsed : Parsed := { uri := "po/x" }

theorem C8_witness :
    alookup c8m.name c8parsed.methods = none ∧ c8m.returnType = some "string" ∧
    processMethod 5 "po/x" c8m (some 0) [] c8parsed =
      .ok ({ displayName := c8m.name, name := c8m.name,
             description := processDescription c8m.description,
             effectiveArgs := c8m.args.getD [], category := DataTypes.METHOD,
             type := .str "string", pub := true, lastStepApply := "", elements := [] },
           c8parsed, [], []) :=
  ⟨rfl, rfl,
    C8_explicit_return_type_skips_steps 4 "po/x" c8m (some 0) [] c8parsed "string"
      rfl rfl (by decide)⟩

/-- C6: filter evaluation on a returnAll selector yields the empty result
set, without an error, whenever the filter information is absent, its
value-bound argument list is empty, or the matched element list is empty;
and when findFirst is requested only the first element passing the filter
is retained. -/
theorem C6_unbound_filter_empty_and_findFirst
    (fuel : Nat) (elements : List Dom) (f : FilterInfo) :
    filterElements fuel elements none = .ok [] ∧
    ((f.args = [] ∨ elements = []) → filterElements fuel elements (some f) = .ok []) ∧
    (∀ a0 rest l, f.findFirst = true → f.args = a0 :: rest →
      passingElements fuel f
        (if (match f.apply with
             | some a => filterableApplyMethods.contains a
             | none => false) then a0.value else some "")
        elements = .ok l →
      filterElements fuel elements (some f) = .ok (l.take 1)) := by
  refine ⟨rfl, ?_, ?_⟩
  · intro h
    cases h with
    | inl ha => cases elements <;> simp [filterElements, ha]
    | inr he => subst he; cases hf : f.args <;> simp [filterElements]
  · intro a0 rest l hff hargs hpass
    obtain ⟨fap, fmt, fargs, fff, fat, fae⟩ := f
    subst hargs
    subst hff
    cases elements with
    | nil =>
      simp only [passingElements] at hpass
      cases hpass
      simp [filterElements]
    | cons e es =>
      simp only [filterElements, hpass, JsRes.bind_ok]
      cases l with
      | nil => simp
      | cons x xs => simp

def c6d1 : Dom := .mk [".item"] "Apple" "" [] [] none []

def c6d2 : Dom := .mk [".item"] "Banana" "" [] [] none []

def c6f0 : FilterInfo :=
  { apply := some "getText", matcherType := some "stringEquals", args := [],
    findFirst := true }

def c6f1 : FilterInfo :=
  { apply := some "getText", matcherType := some "stringEquals",
    args := [{ name := "label", value := some "Banana" }], findFirst := true }

theorem C6_witness :
    filterElements 5 [c6d1, c6d2] none = .ok [] ∧
    filterElements 5 [c6d1, c6d2] (some c6f0) = .ok [] ∧
    filterElements 5 [c6d1, c6d2] (some c6f1) = .ok ([c6d2].take 1) :=
  ⟨(C6_unbound_filter_empty_and_findFirst 5 [c6d1, c6d2] c6f0).1,
   (C6_unbound_filter_empty_and_findFirst 5 [c6d1, c6d2] c6f0).2.1 (Or.inl rfl),
   (C6_unbound_filter_empty_and_findFirst 5 [c6d1, c6d2] c6f1).2.2
     { name := "label", value := some "Banana" } [] [c6d2] rfl rfl rfl⟩

/-- Projection on a resolver result: the parsed page object. -/
def parsedOf (r : JsRes (Parsed × Defs × WLog)) : Option Parsed :=
  match r with
  | .ok v => some v.1
  | _ => none

/-- Projection on a resolver result: the definition set after the call. -/
def defsAfterOf (r : JsRes (Parsed × Defs × WLog)) (dflt : Defs) : Defs :=
  match r with
  | .ok v => v.2.1
  | _ => dflt

def c2eDef : ElementDef :=
  .mk "e" none (some { css := some ".e", args := some [{ name := "x" }] }) none false none [] []

def c2mDef : MethodDef :=
  { name := "M", args := some [{ name := "a" }],
    compose := some [.mk (some "e") none none none false none] }

def c2Defs : Defs := [("w/po", { elements := [c2eDef], methods := [c2mDef] })]

def c2DefsAfter : Defs := defsAfterOf (parsePageObject 30 "w/po" c2Defs) []

/-- C2 counterexample: resolving the same definition set twice with no
mutation between the calls does not yield structurally identical method
maps, and the second resolution is not answered from the session cache.
The first resolution pushes the referenced-element args onto the raw args
array of method M (effectiveArgs a, x), so the second resolution starts
from the grown raw array and produces effectiveArgs a, x, x, different both
from the first result and from the cached entry written by the first
resolution. -/
theorem C2_counterexample :
    (parsedOf (parsePageObject 30 "w/po" c2Defs)).map
      (fun p => (alookup "M" p.methods).map MethodDesc.effectiveArgs)
      = some (some [{ name := "a" }, { name := "x" }]) ∧
    (match parsePageObject 30 "w/po" c2Defs with
     | .ok v => (alookup "w/po" (cacheOf v.2.2)).map
         (fun p => (alookup "M" p.methods).map MethodDesc.effectiveArgs)
     | _ => none) = some (some [{ name := "a" }, { name := "x" }]) ∧
    (parsedOf (parsePageObject 30 "w/po" c2DefsAfter)).map
      (fun p => (alookup "M" p.methods).map MethodDesc.effectiveArgs)
      = some (some [{ name := "a" }, { name := "x" }, { name := "x" }]) ∧
    ([{ name := "a" }, { name := "x" }] : List Arg) ≠
      [{ name := "a" }, { name := "x" }, { name := "x" }] := by
  decide

def c4eDef : ElementDef :=
  .mk "e" none (some { css := some ".e" }) none false none [] []

def c4gDef : MethodDef := { name := "G", returnType := some "string" }

def c4mDef : MethodDef :=
  { name := "M4", compose := some
      [ .mk (some "e") none none none false none
      , .mk none (some "G") none none true none ] }

def c4Defs : Defs := [("p/q", { elements := [c4eDef], methods := [c4gDef, c4mDef] })]

/-- C4 counterexample: in method M4 the chain step follows a step whose
inferred type is basic, which is not a page-object URI, and its apply names
method G of the current page object, whose resolved type is string.  Were
the chain step a no-op pivot keeping lookups on the current page object, as
the claim states, the step would resolve G and M4 would get type string.
The code instead skips the step entirely (the missing-URI branch), so M4
keeps the previous inferred type basic and records no apply name. -/
theorem C4_counterexample :
    (parsedOf (parsePageObject 40 "p/q" c4Defs)).map
      (fun p => (alookup "M4" p.methods).map MethodDesc.type)
      = some (some (.str "basic")) ∧
    (parsedOf (parsePageObject 40 "p/q" c4Defs)).map
      (fun p => (alookup "M4" p.methods).map MethodDesc.lastStepApply)
      = some (some "") ∧
    (parsedOf (parsePageObject 40 "p/q" c4Defs)).map
      (fun p => (alookup "G" p.methods).map MethodDesc.type)
      = some (some (.str "string")) ∧
    (alookup "basic" c4Defs).isNone = true ∧
    TypeDecl.str "basic" ≠ TypeDecl.str "string" := by
  decide

def c5fDef : ElementDef :=
  .mk "f" (some (.str "missing/po")) (some { css := some ".f" }) none false none [] []

def c5mDef : MethodDef :=
  { name := "M5", compose := some
      [ .mk (some "f") none none none false none
      , .mk none none none none true none
      , .mk (some "f") (some "getText") none none false none ] }

def c5Defs : Defs := [("p5/q", { elements := [c5fDef], methods := [c5mDef] })]

/-- C5 failing input: method M5 has a chain step whose target URI
missing/po is not in the definition set.  The JS logs an abort message and
returns, but the return exits only the forEach callback, so the third step
is still processed: the method ends with type string and lastStepApply
getText from the step after the supposed abort, where an aborted method
would have kept type missing/po and an empty lastStepApply. -/
theorem C5_chain_abort_does_not_stop_later_steps :
    (parsedOf (parsePageObject 40 "p5/q" c5Defs)).map
      (fun p => (alookup "M5" p.methods).map MethodDesc.type)
      = some (some (.str "string")) ∧
    (parsedOf (parsePageObject 40 "p5/q" c5Defs)).map
      (fun p => (alookup "M5" p.methods).map MethodDesc.lastStepApply)
      = some (some "getText") ∧
    (alookup "missing/po" c5Defs).isNone = true ∧
    TypeDecl.str "string" ≠ TypeDecl.str "missing/po" := by
  decide

theorem bind_eq_fuelOut {α β : Type} {x : JsRes α} {f : α → JsRes β}
    (h : x = .fuelOut) : JsRes.bind x f = .fuelOut := by
  rw [h]; rfl

def cycA : MethodDef :=
  { name := "A", compose := some [.mk none (some "B") none none false none] }

def cycB : MethodDef :=
  { name := "B", compose := some [.mk none (some "A") none none false none] }

def cycDefs : Defs := [("c/po", { methods := [cycA, cycB] })]

def cycParsed : Parsed := { uri := "c/po" }

theorem cyc_runs_out : ∀ n,
    run n (.pmethod "c/po" cycA (some 0) cycDefs cycParsed) = .fuelOut ∧
    run n (.pmethod "c/po" cycB (some 1) cycDefs cycParsed) = .fuelOut := by
  intro n
  induction n using Nat.strong_induction_on with
  | _ n ih =>
    match n with
    | 0 => exact ⟨rfl, rfl⟩
    | 1 => exact ⟨rfl, rfl⟩
    | 2 => exact ⟨rfl, rfl⟩
    | 3 => exact ⟨rfl, rfl⟩
    | (j + 4) =>
      have hA := (ih j (by omega)).1
      have hB := (ih j (by omega)).2
      simp only [cycA, cycB, cycDefs, cycParsed] at hA hB
      constructor
      · simp only [run, cycA, cycB, cycDefs, cycParsed, alookup, findMethodIdx, strOr,
          strTruthy, StepDef.chain, StepDef.apply, StepDef.applyExternal, StepDef.element,
          StepDef.args, StepDef.returnType, Option.getD]
        repeat apply bind_eq_fuelOut
        exact hB
      · simp only [run, cycA, cycB, cycDefs, cycParsed, alookup, findMethodIdx, strOr,
          strTruthy, StepDef.chain, StepDef.apply, StepDef.applyExternal, StepDef.element,
          StepDef.args, StepDef.returnType, Option.getD]
        repeat apply bind_eq_fuelOut
        exact hA

/-- Proposition that resolving method A of the cyclic pair, in the state in
which processMethods first reaches it, completes within some finite
interpreter fuel instead of exhausting every fuel bound. -/
def cycMethodResolutionHalts : Prop :=
  ∃ fuel, processMethod fuel "c/po" cycA (some 0) cycDefs cycParsed ≠ .fuelOut

/-- C1 counterexample: for the definition set in which a step of method A
applies B while a step of B applies A, resolving A exhausts every fuel
bound: the method map is only written after a method is fully walked, so
the cycle is never detected as an already-resolved short-circuit and the
JS recursion does not terminate. -/
theorem C1_counterexample_cycle_diverges : ¬ cycMethodResolutionHalts := by
  intro h
  obtain ⟨n, hne⟩ := h
  exact hne (cyc_runs_out n).1

/-- C1 amended: the memoized short-circuit exists only for a method already
stored in the owning parsed page object method map, which happens only
after a method has been fully walked; such a call returns the stored
descriptor at once, touching nothing.  (A reference cycle among methods
not yet stored is not short-circuited; the counterexample shows resolution
then runs forever.) -/
theorem C1_amended_memo_short_circuit
    (n : Nat) (uri : String) (m : MethodDef) (midx : Option Nat) (defs : Defs)
    (parsed : Parsed) (d : MethodDesc)
    (h : alookup m.name parsed.methods = some d) :
    processMethod (n + 1) uri m midx defs parsed = .ok (d, parsed, defs, []) := by
  unfold processMethod
  simp only [run, processMethodFn, h]

def c1StoredDesc : MethodDesc := { displayName := "A", name := "A", type := .str "void" }

def c1StoredParsed : Parsed := { uri := "c/po", methods := [("A", c1StoredDesc)] }

theorem C1_amended_witness :
    alookup cycA.name c1StoredParsed.methods = some c1StoredDesc ∧
    processMethod 1 "c/po" cycA (some 0) cycDefs c1StoredParsed =
      .ok (c1StoredDesc, c1StoredParsed, cycDefs, []) :=
  ⟨rfl, C1_amended_memo_short_circuit 0 "c/po" cycA (some 0) cycDefs c1StoredParsed
    c1StoredDesc rfl⟩

/-- The definition set a resolver request starts from. -/
def reqDefs : Req → Defs
  | .parse _ d => d
  | .pmethods _ _ d _ => d
  | .pmethod _ _ _ d _ => d
  | .sloop _ _ _ ls => ls.defs
  | .sbody _ _ _ _ _ _ ls => ls.defs
  | .pstep _ _ d _ => d

/-- The definition set a resolver result carries out. -/
def retDefs : (r : Req) → Ret r → Defs
  | .parse _ _, v => v.2.1
  | .pmethods _ _ _ _, v => v.2.1
  | .pmethod _ _ _ _ _, v => v.2.2.1
  | .sloop _ _ _ _, v => v.1.defs
  | .sbody _ _ _ _ _ _ _, v => v.1.defs
  | .pstep _ _ _ _, v => v.2.2.1

/-- Invariant for the mutation-freedom lemma: no method of the definition
set declares an args array, and a processMethod request targets a method
without one. -/
def reqGood : Req → Prop
  | .pmethod _ m _ d _ => noMethodArgsB d = true ∧ m.args = none
  | r => noMethodArgsB (reqDefs r) = true

theorem bind_ok_inv {α β : Type} {x : JsRes α} {f : α → JsRes β} {b : β}
    (h : JsRes.bind x f = .ok b) : ∃ a, x = .ok a ∧ f a = .ok b := by
  cases x with
  | ok a => exact ⟨a, rfl, h⟩
  | err => simp [JsRes.bind] at h
  | fuelOut => simp [JsRes.bind] at h

/-- When no method declares an args array, the resolver never changes the
definition set: the only mutation in the source is the in-place growth of a
raw method args array, which requires the array to exist. -/
theorem run_defs_preserved :
    ∀ (n : Nat) (r : Req), reqGood r → ∀ v, run n r = .ok v → retDefs r v = reqDefs r := by
  intro n
  induction n with
  | zero => intro r _ v h; simp [run] at h
  | succ n ih =>
    intro r hg v h
    cases r with
    | parse uri defs =>
      simp only [run, parseFn] at h
      split at h
      · simp at h
      · obtain ⟨w, hrec, h2⟩ := bind_ok_inv h
        obtain ⟨p4, d4, lg⟩ := w
        have hd : d4 = defs := by refine ih _ ?_ _ hrec; exact hg
        cases h2
        simpa using hd
    | pmethods uri idxs defs parsed =>
      cases idxs with
      | nil =>
        simp only [run, processMethodsFn] at h
        cases h
        rfl
      | cons i rest =>
        simp only [run, processMethodsFn] at h
        split at h
        · simp at h
        next po hpo =>
          split at h
          · simp at h
          next m hm =>
            obtain ⟨w1, hrec1, h2⟩ := bind_ok_inv h
            obtain ⟨md, parsed1, defs1, log1⟩ := w1
            have e1 : defs1 = defs := by
              refine ih _ ?_ _ hrec1
              exact ⟨hg, noMethodArgs_of_lookup hg hpo hm⟩
            obtain ⟨w2, hrec2, h3⟩ := bind_ok_inv h2
            obtain ⟨p2, d2, log2⟩ := w2
            have hg2 : noMethodArgsB defs1 = true := by rw [e1]; exact hg
            have e2 : d2 = defs1 := by refine ih _ ?_ _ hrec2; exact hg2
            cases h3
            simpa using e2.trans e1
    | pmethod uri m midx defs parsed =>
      obtain ⟨hgd, hargs⟩ := hg
      simp only [run, processMethodFn] at h
      split at h
      next d hd =>
        cases h
        rfl
      next hnone =>
        split at h
        · obtain ⟨w, hrec, h2⟩ := bind_ok_inv h
          obtain ⟨ls1, log1⟩ := w
          have e1 : ls1.defs = defs := by refine ih _ ?_ _ hrec; exact hgd
          rw [hargs] at h2
          cases h2
          simpa using e1
        · cases h
          rfl
    | sloop uri mret steps ls =>
      cases steps with
      | nil =>
        simp only [run, stepLoopFn] at h
        cases h
        rfl
      | cons step rest =>
        simp only [run, stepLoopFn] at h
        split at h
        · split at h
          · have e0 : v.1.defs = ls.defs := by refine ih _ ?_ _ h; exact hg
            exact e0
          · obtain ⟨w1, hrec1, h2⟩ := bind_ok_inv h
            obtain ⟨p2, defs2, logA⟩ := w1
            have e1 : defs2 = ls.defs := by refine ih _ ?_ _ hrec1; exact hg
            obtain ⟨w2, hrec2, h3⟩ := bind_ok_inv h2
            obtain ⟨ls2, logB⟩ := w2
            have hg2 : noMethodArgsB defs2 = true := by rw [e1]; exact hg
            have e2 : ls2.defs = defs2 := by refine ih _ ?_ _ hrec2; exact hg2
            obtain ⟨w3, hrec3, h4⟩ := bind_ok_inv h3
            obtain ⟨ls3, logC⟩ := w3
            have hg3 : noMethodArgsB ls2.defs = true := by rw [e2]; exact hg2
            have e3 : ls3.defs = ls2.defs := by refine ih _ ?_ _ hrec3; exact hg3
            cases h4
            simpa using e3.trans (e2.trans e1)
        · obtain ⟨w2, hrec2, h3⟩ := bind_ok_inv h
          obtain ⟨ls2, logB⟩ := w2
          have e2 : ls2.defs = ls.defs := by refine ih _ ?_ _ hrec2; exact hg
          obtain ⟨w3, hrec3, h4⟩ := bind_ok_inv h3
          obtain ⟨ls3, logC⟩ := w3
          have hg3 : noMethodArgsB ls2.defs = true := by rw [e2]; exact hg
          have e3 : ls3.defs = ls2.defs := by refine ih _ ?_ _ hrec3; exact hg3
          cases h4
          simpa using e3.trans e2
    | sbody uri mret stepUri stepParsed isChain step ls =>
      simp only [run, stepBodyFn] at h
      obtain ⟨w, hrec, h2⟩ := bind_ok_inv h
      obtain ⟨si, parsedS, defs2, log1⟩ := w
      have e1 : defs2 = ls.defs := by refine ih _ ?_ _ hrec; exact hg
      cases h2
      simpa using e1
    | pstep uri step defs parsed =>
      simp only [run, processStepFn] at h
      split at h
      case isTrue => cases h; rfl
      case isFalse =>
        split at h
        case isFalse => cases h; rfl
        case isTrue =>
          split at h
          case isTrue =>
            split at h
            case h_1 a0 rest0 =>
              obtain ⟨w, hrec, h2⟩ := bind_ok_inv h
              obtain ⟨md, parsed1, defs1, log1⟩ := w
              have e1 : defs1 = defs := by refine ih _ ?_ _ hrec; exact ⟨hg, rfl⟩
              cases h2
              simpa using e1
            case h_2 => simp at h
          case isFalse =>
            split at h
            case isTrue =>
              split at h
              case isTrue => cases h; rfl
              case isFalse =>
                split at h
                next pm hpm => cases h; rfl
                next hpmnone =>
                  split at h
                  next hponone => simp at h
                  next po hpo =>
                    split at h
                    next i hi =>
                      split at h
                      case h_2 hcmnone => simp at h
                      case h_1 cm hcm =>
                        obtain ⟨w, hrec, h2⟩ := bind_ok_inv h
                        obtain ⟨md, parsed1, defs1, log1⟩ := w
                        have e1 : defs1 = defs := by
                          refine ih _ ?_ _ hrec
                          exact ⟨hg, noMethodArgs_of_lookup hg hpo hcm⟩
                        cases h2
                        simpa using e1
                    next hfnone =>
                      cases h
                      rfl
            case isFalse =>
              split at h
              · cases h
                rfl
              · cases h
                rfl

def JsRes.isOkB {α : Type} : JsRes α → Bool
  | .ok _ => true
  | _ => false

/-- C2 amended: resolution never reads the session cache (parsePageObject
takes only the definition set; the cache appears solely as a write log),
and reparsing is idempotent whenever no method of the definition set
declares an args array: the definition set is returned unchanged and a
second resolution yields the identical parsed page object.  (The
counterexample shows idempotence fails when a method declares args and
references arg-bearing elements, because the raw args array grows in
place.) -/
theorem C2_amended_idempotent_without_declared_args
    (fuel : Nat) (uri : String) (defs : Defs) (p : Parsed) (d2 : Defs) (lg : WLog)
    (hna : noMethodArgsB defs = true)
    (h : parsePageObject fuel uri defs = .ok (p, d2, lg)) :
    d2 = defs ∧ parsePageObject fuel uri d2 = .ok (p, d2, lg) := by
  have e : d2 = defs := by
    have hpres := run_defs_preserved fuel (.parse uri defs) hna (p, d2, lg) h
    simpa using hpres
  refine ⟨e, ?_⟩
  conv_lhs => rw [e]
  exact h

def c2wDefs : Defs :=
  [("idem/po",
    { elements := [c2eDef],
      methods := [{ name := "MW", compose := some [.mk (some "e") none none none false none] }] })]

theorem C2_amended_witness :
    noMethodArgsB c2wDefs = true ∧
    ∃ p d2 lg, parsePageObject 30 "idem/po" c2wDefs = .ok (p, d2, lg) ∧ d2 = c2wDefs ∧
      parsePageObject 30 "idem/po" d2 = .ok (p, d2, lg) := by
  refine ⟨by decide, ?_⟩
  have hok : (parsePageObject 30 "idem/po" c2wDefs).isOkB = true := by decide
  cases hh : parsePageObject 30 "idem/po" c2wDefs with
  | ok w =>
    obtain ⟨p, d2, lg⟩ := w
    obtain ⟨e, h2⟩ :=
      C2_amended_idempotent_without_declared_args 30 "idem/po" c2wDefs p d2 lg (by decide) hh
    exact ⟨p, d2, lg, rfl, e, h2⟩
  | err => rw [hh] at hok; simp [JsRes.isOkB] at hok
  | fuelOut => rw [hh] at hok; simp [JsRes.isOkB] at hok

/-- C4 amended: a chain step whose previous inferred return type is a URI
present in the definition set pivots the step interpretation onto that
target page object, re-resolved recursively (its parsed definition is what
the step body receives); a chain step whose previous inferred type is the
empty string, or a non-chain step, is interpreted against the current page
object; but a chain step whose previous inferred type is non-empty and not
a known URI is skipped entirely, leaving the loop state untouched, instead
of being a no-op pivot interpreted against the current page object. -/
theorem C4_amended_chain_pivot (n : Nat) (uri : String) (mret : Option String)
    (step : StepDef) (rest : List StepDef) (ls : LoopSt) :
    (step.chain = true → ls.lastRT ≠ TypeDecl.str "" →
      (alookup (tdKey ls.lastRT) ls.defs).isNone = true →
      stepLoop (n + 1) uri mret (step :: rest) ls = stepLoop n uri mret rest ls) ∧
    (step.chain = true → ls.lastRT ≠ TypeDecl.str "" →
      (alookup (tdKey ls.lastRT) ls.defs).isSome = true →
      ∀ p2 d2 lg, parsePageObject n (tdKey ls.lastRT) ls.defs = .ok (p2, d2, lg) →
      stepLoop (n + 1) uri mret (step :: rest) ls =
        JsRes.bind (stepBody n uri mret (tdKey ls.lastRT) p2 true step { ls with defs := d2 })
          (fun x => JsRes.bind (stepLoop n uri mret rest x.1)
            (fun y => JsRes.ok (y.1, lg ++ x.2 ++ y.2)))) ∧
    (step.chain = false ∨ ls.lastRT = TypeDecl.str "" →
      stepLoop (n + 1) uri mret (step :: rest) ls =
        JsRes.bind (stepBody n uri mret uri ls.parsed false step ls)
          (fun x => JsRes.bind (stepLoop n uri mret rest x.1)
            (fun y => JsRes.ok (y.1, x.2 ++ y.2)))) := by
  refine ⟨?_, ?_, ?_⟩
  · intro h1 h2 h3
    rw [Option.isNone_iff_eq_none] at h3
    show run (n + 1) (.sloop uri mret (step :: rest) ls) = _
    simp only [run, stepLoopFn, if_pos (And.intro h1 h2), h3]
    rfl
  · intro h1 h2 h3 p2 d2 lg hp
    obtain ⟨po, hpo⟩ := Option.isSome_iff_exists.mp h3
    show run (n + 1) (.sloop uri mret (step :: rest) ls) = _
    simp only [run, stepLoopFn, if_pos (And.intro h1 h2), hpo]
    have hp2 : run n (.parse (tdKey ls.lastRT) ls.defs) = .ok (p2, d2, lg) := hp
    rw [hp2]
    simp only [JsRes.bind_ok]
    cases hsb : run n (.sbody uri mret (tdKey ls.lastRT) p2 true step { ls with defs := d2 }) with
    | ok w =>
      obtain ⟨ls2, logB⟩ := w
      show JsRes.bind _ _ = JsRes.bind (stepBody n uri mret (tdKey ls.lastRT) p2 true step
        { ls with defs := d2 }) _
      rw [show stepBody n uri mret (tdKey ls.lastRT) p2 true step { ls with defs := d2 }
        = run n (.sbody uri mret (tdKey ls.lastRT) p2 true step { ls with defs := d2 }) from rfl]
      rw [hsb]
      simp only [JsRes.bind_ok]
      cases hsl : run n (.sloop uri mret rest ls2) with
      | ok w2 =>
        obtain ⟨ls3, logC⟩ := w2
        rw [show stepLoop n uri mret rest ls2 = run n (.sloop uri mret rest ls2) from rfl, hsl]
        rfl
      | err =>
        rw [show stepLoop n uri mret rest ls2 = run n (.sloop uri mret rest ls2) from rfl, hsl]
        rfl
      | fuelOut =>
        rw [show stepLoop n uri mret rest ls2 = run n (.sloop uri mret rest ls2) from rfl, hsl]
        rfl
    | err =>
      rw [show stepBody n uri mret (tdKey ls.lastRT) p2 true step { ls with defs := d2 }
        = run n (.sbody uri mret (tdKey ls.lastRT) p2 true step { ls with defs := d2 }) from rfl]
      rw [hsb]
      rfl
    | fuelOut =>
      rw [show stepBody n uri mret (tdKey ls.lastRT) p2 true step { ls with defs := d2 }
        = run n (.sbody uri mret (tdKey ls.lastRT) p2 true step { ls with defs := d2 }) from rfl]
      rw [hsb]
      rfl
  · intro h
    have hcond : ¬ (step.chain = true ∧ ls.lastRT ≠ TypeDecl.str "") := by
      rcases h with h | h
      · intro hc; rw [h] at hc; exact Bool.false_ne_true hc.1
      · intro hc; exact hc.2 h
    show run (n + 1) (.sloop uri mret (step :: rest) ls) = _
    simp only [run, stepLoopFn, if_neg hcond]
    cases hsb : run n (.sbody uri mret uri ls.parsed false step ls) with
    | ok w =>
      obtain ⟨ls2, logB⟩ := w
      rw [show stepBody n uri mret uri ls.parsed false step ls
        = run n (.sbody uri mret uri ls.parsed false step ls) from rfl]
      rw [hsb]
      simp only [JsRes.bind_ok]
      cases hsl : run n (.sloop uri mret rest ls2) with
      | ok w2 =>
        obtain ⟨ls3, logC⟩ := w2
        rw [show stepLoop n uri mret rest ls2 = run n (.sloop uri mret rest ls2) from rfl, hsl]
        rfl
      | err =>
        rw [show stepLoop n uri mret rest ls2 = run n (.sloop uri mret rest ls2) from rfl, hsl]
        rfl
      | fuelOut =>
        rw [show stepLoop n uri mret rest ls2 = run n (.sloop uri mret rest ls2) from rfl, hsl]
        rfl
    | err =>
      rw [show stepBody n uri mret uri ls.parsed false step ls
        = run n (.sbody uri mret uri ls.parsed false step ls) from rfl]
      rw [hsb]
      rfl
    | fuelOut =>
      rw [show stepBody n uri mret uri ls.parsed false step ls
        = run n (.sbody uri mret uri ls.parsed false step ls) from rfl]
      rw [hsb]
      rfl

def c4chainStep : StepDef := .mk none (some "G") none none true none

def c4lsMissing : LoopSt := ⟨"", .str "basic", "", [], { uri := "p/q" }, c4Defs⟩

def c4lsEmpty : LoopSt := ⟨"", .str "", "", [], { uri := "p/q" }, c4Defs⟩

def c4lsKnown : LoopSt := ⟨"", .str "p/q", "", [], { uri := "p/q" }, c4Defs⟩

theorem C4_amended_witness :
    (stepLoop 11 "p/q" none [c4chainStep] c4lsMissing =
      stepLoop 10 "p/q" none [] c4lsMissing) ∧
    (stepLoop 11 "p/q" none [c4chainStep] c4lsEmpty =
      JsRes.bind (stepBody 10 "p/q" none "p/q" c4lsEmpty.parsed false c4chainStep c4lsEmpty)
        (fun x => JsRes.bind (stepLoop 10 "p/q" none [] x.1)
          (fun y => JsRes.ok (y.1, x.2 ++ y.2)))) ∧
    (∃ p2 d2 lg, parsePageObject 40 "p/q" c4lsKnown.defs = .ok (p2, d2, lg) ∧
      stepLoop 41 "p/q" none [c4chainStep] c4lsKnown =
        JsRes.bind (stepBody 40 "p/q" none "p/q" p2 true c4chainStep { c4lsKnown with defs := d2 })
          (fun x => JsRes.bind (stepLoop 40 "p/q" none [] x.1)
            (fun y => JsRes.ok (y.1, lg ++ x.2 ++ y.2)))) := by
  refine ⟨(C4_amended_chain_pivot 10 "p/q" none c4chainStep [] c4lsMissing).1 rfl
      (by decide) (by decide),
    (C4_amended_chain_pivot 10 "p/q" none c4chainStep [] c4lsEmpty).2.2 (Or.inr rfl), ?_⟩
  have hok : (parsePageObject 40 "p/q" c4lsKnown.defs).isOkB = true := by decide
  cases hh : parsePageObject 40 "p/q" c4lsKnown.defs with
  | ok w =>
    obtain ⟨p2, d2, lg⟩ := w
    exact ⟨p2, d2, lg, rfl,
      (C4_amended_chain_pivot 40 "p/q" none c4chainStep [] c4lsKnown).2.1 rfl
        (by decide) (by decide) p2 d2 lg hh⟩
  | err => rw [hh] at hok; simp [JsRes.isOkB] at hok
  | fuelOut => rw [hh] at hok; simp [JsRes.isOkB] at hok

/-- The grown argument array returned by processElementObject is the array
it was handed followed by the element own contribution. -/
theorem processElementObject_snd (defs : Defs) (e : ElementDef) (pn : Option String)
    (P : List Arg) (sh : Bool) :
    (processElementObject defs e pn P sh).2 = P ++ ownContrib e := by
  unfold processElementObject ownContrib procSelector
  cases hsel : e.selector with
  | none => simp
  | some s =>
    obtain ⟨css, sargs, ra⟩ := s
    by_cases hcss : strTruthy css
    · simp only [hcss, if_true]
      cases sargs <;> cases ra <;> (try simp) <;>
        (cases hf : e.filter with
         | none => simp
         | some f =>
           obtain ⟨fap, fm, ff⟩ := f
           cases fm with
           | none => simp
           | some mm =>
             obtain ⟨mt, ma⟩ := mm
             cases ma <;> simp)
    · simp [hcss]

/-- C3 amended: the element walk stores, for every element, effective
arguments equal to the root-to-leaf concatenation of every ancestor
contribution followed by the element own contribution, where a
contribution is the processed selector args plus, for a returnAll selector
with filter matcher args, those matcher args; both child branches extend
the ancestor list by the own contribution while siblings share it, so
sibling subtrees never receive each other arguments; and the walk is a
pure function of its input, so the order is identical across repeated
resolutions. -/
theorem C3_amended_ancestor_contribution_args :
    ∀ (fuel : Nat) (defs : Defs) (pn : Option String) (es : List ElementDef)
      (P : List Arg) (A : List (List Arg)) (sh : Bool) (acc : List (String × ElemDesc)),
      P = A.flatten →
      procElemList fuel defs pn P sh es acc = specElemList fuel defs pn A sh es acc := by
  intro fuel
  induction fuel with
  | zero =>
    intro defs pn es P A sh acc hP
    cases es <;> simp [procElemList, specElemList]
  | succ n ih =>
    intro defs pn es P A sh acc hP
    cases es with
    | nil => simp [procElemList, specElemList]
    | cons e rest =>
      subst hP
      simp only [procElemList, specElemList, processElementObject_snd]
      rw [ih defs (some e.name) e.elements _ (A ++ [ownContrib e]) false _ (by simp)]
      rw [ih defs (some e.name) e.shadowElements _ (A ++ [ownContrib e]) true _ (by simp)]
      rw [ih defs pn rest _ A sh _ rfl]

def c3childC : ElementDef :=
  .mk "c" none (some { css := some ".c", args := some [{ name := "b" }] }) none false none [] []

def c3parentP : ElementDef :=
  .mk "p" none
    (some { css := some ".p", args := some [{ name := "a" }], returnAll := true })
    (some { apply := some "getText",
            matcher := some { type := some "stringEquals", args := some [{ name := "fl" }] } })
    false none [c3childC] []

def c3Defs : Defs := [("t/po", { elements := [c3parentP] })]

/-- C3 counterexample: the child element c of the returnAll-filtered parent
p has effectiveArgs a, fl, b — the parent filter matcher argument fl is
inherited by the child — whereas the claim (ancestors contribute only their
own selector args) predicts a, b. -/
theorem C3_counterexample :
    (parsedOf (parsePageObject 40 "t/po" c3Defs)).map
      (fun p => (alookup "c" p.elements).map ElemDesc.effectiveArgs)
      = some (some (some [{ name := "a" }, { name := "fl" }, { name := "b" }])) ∧
    (some [{ name := "a" }, { name := "fl" }, { name := "b" }] : Option (List Arg)) ≠
      some [{ name := "a" }, { name := "b" }] := by
  decide

theorem C3_amended_witness :
    procElemList 10 c3Defs none [] false [c3parentP] [] =
      specElemList 10 c3Defs none [] false [c3parentP] [] :=
  C3_amended_ancestor_contribution_args 10 c3Defs none [c3parentP] [] [] false [] rfl

/-- Ancestor paths in which every segment declares a selector args list. -/
def segsArgful (path : List ElemDesc) : Bool :=
  path.all (fun seg => (seg.selector.bind Selector.args).isSome)

theorem walkSegs_argful_eq (fuel : Nat) (resolver : POResolver) :
    ∀ (path : List ElemDesc) (st : WalkSt), segsArgful path = true →
      walkSegs fuel resolver path st = walkSegsSpec fuel resolver path st := by
  intro path
  induction path with
  | nil => intro st _; rfl
  | cons seg rest ih =>
    intro st hall
    simp only [segsArgful, List.all_cons, Bool.and_eq_true] at hall
    obtain ⟨hseg, hrest⟩ := hall
    cases hsel : seg.selector with
    | none => rw [hsel] at hseg; simp at hseg
    | some sel =>
      cases hargs : sel.args with
      | none => rw [hsel] at hseg; simp [hargs] at hseg
      | some sargs =>
        simp only [walkSegs, walkSegsSpec, hsel, hargs, Option.getD]
        cases hfi : getFilterInfo fuel resolver seg (st.cur.drop sargs.length) with
        | ok fi =>
          simp only [JsRes.bind_ok]
          cases hge : getElement fuel seg (st.cur.take sargs.length) fi st.currentElement with
          | ok pr =>
            obtain ⟨el, after⟩ := pr
            simp only [JsRes.bind_ok]
            exact ih _ hrest
          | err => rfl
          | fuelOut => rfl
        | err => rfl
        | fuelOut => rfl

/-- C7 amended: when every ancestor on the reconstructed chain declares a
selector args property, the element walk of walkElements coincides with the
specification walk that resolves every ancestor root-first, consuming each
ancestor selector-argument prefix, and resolves the target against the
final ancestor node.  (Without that condition an ancestor that declares no
selector args is skipped entirely, as the counterexample shows.) -/
theorem C7_amended_argful_ancestor_walk (fuel : Nat) (resolver : POResolver)
    (parent : Option Dom) (e : ElemDesc) (args : List Arg)
    (siblings : List (String × ElemDesc))
    (hpaths : ∀ path, buildPath fuel siblings (e.parent.getD "") = .ok path →
      segsArgful path = true) :
    walkElements fuel resolver parent (.el e) args siblings =
      walkElementsSpec fuel resolver parent e args siblings := by
  simp only [walkElements, walkElementsSpec]
  by_cases hp : strTruthy e.parent
  · simp only [hp, if_true]
    cases hbp : buildPath fuel siblings (e.parent.getD "") with
    | ok path =>
      simp only [JsRes.bind_ok]
      rw [walkSegs_argful_eq fuel resolver path _ (hpaths path hbp)]
    | err => rfl
    | fuelOut => rfl
  · simp [hp]

def c7cUnder : Dom := .mk [".c"] "under" "" [] [] none []

def c7cDirect : Dom := .mk [".c"] "direct" "" [] [] none []

def c7pNode : Dom := .mk [".p"] "" "" [] [] none [c7cUnder]

def c7gpNode : Dom := .mk [".gp"] "" "" [] [] none [c7cDirect, c7pNode]

def c7root : Dom := .mk [] "" "" [] [] none [c7gpNode]

def c7gpDesc : ElemDesc :=
  { name := some "gp", selector := some { css := some ".gp", args := some [] } }

def c7pDesc : ElemDesc :=
  { name := some "p", selector := some { css := some ".p" }, parent := some "gp" }

def c7cDesc : ElemDesc :=
  { name := some "c", selector := some { css := some ".c" }, parent := some "p" }

def c7siblings : List (String × ElemDesc) :=
  [("gp", c7gpDesc), ("p", c7pDesc), ("c", c7cDesc)]

/-- Trivial resolver used by the walker examples (no page-object-typed
descriptors take part, so it is never consulted). -/
def res0 : POResolver := fun _ => none

/-- Projection on a walker result: the text of the located node. -/
def walkTextOf (r : JsRes (Option Dom × List Arg)) : Option String :=
  match r with
  | .ok (some d, _) => some d.text
  | _ => none

/-- C7 counterexample: the ancestor p declares no selector args, so the
code walk skips it entirely and resolves the target c against the
grandparent node, finding the direct child with text direct, while the
claim walk, which resolves every ancestor root-first, finds the node with
text under inside p. -/
theorem C7_counterexample :
    walkTextOf (walkElements 10 res0 (some c7root) (.el c7cDesc) [] c7siblings)
      = some "direct" ∧
    walkTextOf (walkElementsSpec 10 res0 (some c7root) c7cDesc [] c7siblings)
      = some "under" ∧
    (some "direct" : Option String) ≠ some "under" := by
  decide

def c7p2Desc : ElemDesc :=
  { name := some "p", selector := some { css := some ".p", args := some [] },
    parent := some "gp" }

def c7sib2 : List (String × ElemDesc) :=
  [("gp", c7gpDesc), ("p", c7p2Desc), ("c", c7cDesc)]

theorem C7_amended_witness :
    walkElements 10 res0 (some c7root) (.el c7cDesc) [] c7sib2 =
      walkElementsSpec 10 res0 (some c7root) c7cDesc [] c7sib2 :=
  C7_amended_argful_ancestor_walk 10 res0 (some c7root) c7cDesc [] c7sib2
    (by
      intro path h
      rw [show buildPath 10 c7sib2 (c7cDesc.parent.getD "")
        = JsRes.ok [c7gpDesc, c7p2Desc] from rfl] at h
      cases h
      decide)

/-- The forEach loop over the referenced elements of a method descriptor
never mutates the caller array when every referenced element carries an
effectiveArgs array, because the prefix slices are fresh copies. -/
theorem walkMethodRefs_callerAfter (fuel : Nat) (res : POResolver) :
    ∀ (refs : List ElemDesc) (st stF : WalkSt),
      refs.all (fun re => re.effectiveArgs.isSome) = true →
      walkMethodRefs fuel res refs st = .ok stF → stF.callerAfter = st.callerAfter := by
  intro refs
  induction refs with
  | nil =>
    intro st stF _ h
    cases h
    rfl
  | cons re rest ih =>
    intro st stF hall h
    simp only [List.all_cons, Bool.and_eq_true] at hall
    cases heff : re.effectiveArgs with
    | none => rw [heff] at hall; simp at hall
    | some eff =>
      simp only [walkMethodRefs, heff] at h
      obtain ⟨fi, hfi, h2⟩ := bind_ok_inv h
      obtain ⟨pr, hge, h3⟩ := bind_ok_inv h2
      obtain ⟨el, aft⟩ := pr
      have hx := ih _ _ hall.2 h3
      exact hx

/-- The splice law of getElement: with a truthy css holding placeholders
and a non-empty argument array, the array object handed to getElement
loses the first markers-many entries in place. -/
theorem getElement_splice (fuel : Nat) (desc : ElemDesc) (args : List Arg)
    (fi : Option FilterInfo) (p : Dom) (sel : Selector) (css0 : String)
    (hsel : desc.selector = some sel) (hcss : sel.css = some css0) (hne : css0 ≠ "")
    (hm : findMarkers css0.data ≠ []) (ha : args ≠ [])
    (hnof : sel.returnAll = false ∨ desc.filter = none) :
    ∃ r, getElement fuel desc args fi (some p) =
      .ok (r, args.drop (findMarkers css0.data).length) := by
  have hct : strTruthy sel.css = true := by
    rw [hcss]
    simpa [strTruthy] using hne
  have hcond : (findMarkers css0.data).length ≠ 0 ∧ args.length ≠ 0 := by
    constructor
    · simpa [List.length_eq_zero] using hm
    · simpa [List.length_eq_zero] using ha
  have hnofilter : ¬ (sel.returnAll = true ∧ desc.filter.isSome = true) := by
    rcases hnof with h | h
    · intro hc; rw [h] at hc; exact Bool.false_ne_true hc.1
    · intro hc; rw [h] at hc; simp at hc
  have hct2 : strTruthy (some css0) = true := by simpa [strTruthy] using hne
  simp only [getElement, hsel, hcss, hct2, Option.getD_some]
  rw [if_neg (by decide : ¬ (true = false))]
  rw [if_pos hcond, if_neg hnofilter]
  exact ⟨_, rfl⟩

/-- C10 amended: getElement splices the consumed entries off the front of
the array object it is handed (placeholders present and array non-empty);
the caller array of walkElements loses those entries exactly when the
array reaches getElement unsliced, as for a parentless element descriptor;
but in the method walk every referenced element carrying an effectiveArgs
array is resolved against a fresh slice, so the caller array of
walkElements is returned unchanged there. -/
theorem C10_amended_splice_frame (fuel : Nat) (resolver : POResolver) :
    (∀ (desc : ElemDesc) (args : List Arg) (fi : Option FilterInfo) (p : Dom)
       (sel : Selector) (css0 : String),
       desc.selector = some sel → sel.css = some css0 → css0 ≠ "" →
       findMarkers css0.data ≠ [] → args ≠ [] →
       (sel.returnAll = false ∨ desc.filter = none) →
       ∃ r, getElement fuel desc args fi (some p) =
         .ok (r, args.drop (findMarkers css0.data).length)) ∧
    (∀ (e : ElemDesc) (args : List Arg) (p : Dom) (siblings : List (String × ElemDesc))
       (sel : Selector) (css0 : String),
       e.parent = none → e.selector = some sel → sel.css = some css0 → css0 ≠ "" →
       e.filter = none → findMarkers css0.data ≠ [] → args ≠ [] →
       ∃ r, walkElements fuel resolver (some p) (.el e) args siblings =
         .ok (r, args.drop (findMarkers css0.data).length)) ∧
    (∀ (m : MethodDesc) (args : List Arg) (parent : Option Dom)
       (siblings : List (String × ElemDesc)) (r : Option Dom) (after : List Arg),
       m.elements.all (fun re => re.effectiveArgs.isSome) = true →
       walkElements fuel resolver parent (.md m) args siblings = .ok (r, after) →
       after = args) := by
  refine ⟨?_, ?_, ?_⟩
  · intro desc args fi p sel css0 hsel hcss hne hm ha hnof
    exact getElement_splice fuel desc args fi p sel css0 hsel hcss hne hm ha hnof
  · intro e args p siblings sel css0 hpar hsel hcss hne hfil hm ha
    have hptf : strTruthy e.parent = false := by rw [hpar]; rfl
    have hginfo : getFilterInfo fuel resolver e args = .ok none := by
      rw [getFilterInfo, hsel, hfil]
    obtain ⟨r, hge⟩ :=
      getElement_splice fuel e args none p sel css0 hsel hcss hne hm ha (Or.inr hfil)
    refine ⟨r, ?_⟩
    simp only [walkElements, hptf, Bool.false_eq_true, if_false, JsRes.bind_ok]
    rw [hginfo]
    simp only [JsRes.bind_ok]
    rw [hge]
    rfl
  · intro m args parent siblings r after hall h
    simp only [walkElements] at h
    obtain ⟨stF, hw, h2⟩ := bind_ok_inv h
    have hc := walkMethodRefs_callerAfter fuel resolver m.elements _ stF hall hw
    simp only [JsRes.ok.injEq, Prod.mk.injEq] at h2
    rw [← h2.2]
    exact hc

/-- C10 counterexample scene: one argument, one referenced element of a
method descriptor carrying a declared effectiveArgs array, a selector
template with one %s placeholder, and a parent node with one child
matching the substituted selector. -/
def c10node : Dom := .mk ["3-item"] "item3" "" [] [] none []

def c10p : Dom := .mk [] "" "" [] [] none [c10node]

def c10arg : Arg := { name := "idx", value := some "3" }

def c10re : ElemDesc :=
  { name := some "e",
    effectiveArgs := some [{ name := "idx", type := some "string" }],
    selector := some { css := some "%s-item" } }

def c10m : MethodDesc := { displayName := "get item", name := "m", elements := [c10re] }

/-- C10 counterexample: the selector template has a %s placeholder and the
caller passes a non-empty argument array, yet after walkElements returns
the caller array still holds its entry, because the method walk resolves a
referenced element carrying effectiveArgs against a fresh slice of the
array (Array.prototype.slice copies), so getElement splices the copy, not
the caller array.  The claim predicts the caller array has lost the
consumed entry, i.e. became the one-element drop, the empty list. -/
theorem C10_counterexample :
    walkElements 10 res0 (some c10p) (.md c10m) [c10arg] [] =
      .ok (some c10node, [c10arg]) ∧
    findMarkers "%s-item".data = ["%s"] ∧
    ([c10arg] : List Arg).drop (findMarkers "%s-item".data).length = [] ∧
    ([c10arg] : List Arg) ≠ [] := by
  refine ⟨rfl, rfl, rfl, by decide⟩

/-- C10 witness: the splice law of getElement and the frame law of
walkElements hold on the concrete scene, and the method walk there returns
the caller array unchanged. -/
theorem C10_witness :
    c10re.selector = some { css := some "%s-item" } ∧
    findMarkers "%s-item".data ≠ [] ∧
    (∃ r, getElement 10 c10re [c10arg] none (some c10p) =
      .ok (r, ([c10arg] : List Arg).drop (findMarkers "%s-item".data).length)) ∧
    (∃ r, walkElements 10 res0 (some c10p) (.el c10re) [c10arg] [] =
      .ok (r, ([c10arg] : List Arg).drop (findMarkers "%s-item".data).length)) ∧
    ([c10arg] : List Arg) = [c10arg] := by
  have hmain := C10_amended_splice_frame 10 res0
  refine ⟨rfl, by decide, ?_, ?_, ?_⟩
  · exact hmain.1 c10re [c10arg] none c10p { css := some "%s-item" } "%s-item"
      rfl rfl (by decide) (by decide) (by decide) (Or.inr rfl)
  · exact hmain.2.1 c10re [c10arg] c10p [] { css := some "%s-item" } "%s-item"
      rfl rfl rfl (by decide) rfl (by decide) (by decide)
  · exact hmain.2.2 c10m [c10arg] (some c10p) [] (some c10node) [c10arg] (by decide) rfl


/-- URIs an artifact's definition list pushes onto rootPageObjectUris. -/
def artPush (l : List (String × PageObjectDef)) : List String :=
  (l.filter (fun kv => kv.2.root && strTruthy (kv.2.selector.bind Selector.css))).map
    Prod.fst

/-- All per-artifact root pushes of the load loop, in load order. -/
def rootPushList (artifacts : List (String × List (String × PageObjectDef))) :
    List String :=
  artifacts.flatMap (fun a => artPush a.2)

theorem innerFold_snd (l : List (String × PageObjectDef)) (acc : Defs × List String) :
    (l.foldl (fun (acc2 : Defs × List String) kv =>
        (upsert kv.1 kv.2 acc2.1,
         if kv.2.root = true ∧ strTruthy (kv.2.selector.bind Selector.css)
         then acc2.2 ++ [kv.1] else acc2.2)) acc).2 = acc.2 ++ artPush l := by
  induction l generalizing acc with
  | nil => simp [artPush]
  | cons kv rest ih =>
    simp only [List.foldl_cons]
    rw [ih]
    by_cases hb : kv.2.root = true ∧ strTruthy (kv.2.selector.bind Selector.css) = true
    · have hbt : (kv.2.root && strTruthy (kv.2.selector.bind Selector.css)) = true := by
        rw [hb.1, hb.2]; rfl
      rw [if_pos hb]
      simp [artPush, List.filter_cons, hbt, List.append_assoc]
    · have hbf : (kv.2.root && strTruthy (kv.2.selector.bind Selector.css)) = false := by
        cases h1 : kv.2.root <;> cases h2 : strTruthy (kv.2.selector.bind Selector.css) <;>
          simp_all
      rw [if_neg hb]
      simp [artPush, List.filter_cons, hbf]

theorem outerFold_snd (arts : List (String × List (String × PageObjectDef)))
    (acc : Defs × List String) :
    (arts.foldl (fun acc art => art.2.foldl
        (fun (acc2 : Defs × List String) kv =>
          (upsert kv.1 kv.2 acc2.1,
           if kv.2.root = true ∧ strTruthy (kv.2.selector.bind Selector.css)
           then acc2.2 ++ [kv.1] else acc2.2)) acc) acc).2 =
      acc.2 ++ rootPushList arts := by
  induction arts generalizing acc with
  | nil => simp [rootPushList]
  | cons a rest ih =>
    simp only [List.foldl_cons]
    rw [ih, innerFold_snd]
    simp [rootPushList, List.append_assoc]

theorem loadFold_snd (arts : List (String × List (String × PageObjectDef))) :
    (loadFold arts).2 = rootPushList arts := by
  have h := outerFold_snd arts ([], [])
  simpa [loadFold] using h

theorem alookup_eq_none {α : Type} (k : String) (l : List (String × α))
    (h : k ∉ l.map Prod.fst) : alookup k l = none := by
  induction l with
  | nil => rfl
  | cons hd tl ih =>
    simp only [List.map_cons, List.mem_cons] at h
    push_neg at h
    simp only [alookup]
    rw [if_neg (fun he => h.1 he.symm)]
    exact ih h.2

theorem upsert_append {α : Type} (k : String) (v : α) (l : List (String × α))
    (h : alookup k l = none) : upsert k v l = l ++ [(k, v)] := by
  induction l with
  | nil => rfl
  | cons hd tl ih =>
    simp only [alookup] at h
    by_cases he : hd.1 = k
    · rw [if_pos he] at h; exact absurd h (by simp)
    · obtain ⟨k1, v1⟩ := hd
      rw [if_neg he] at h
      simp only [upsert, if_neg he, List.cons_append]
      rw [ih h]

theorem innerFold_fst (l : List (String × PageObjectDef)) (acc : Defs × List String)
    (h : (acc.1.map Prod.fst ++ l.map Prod.fst).Nodup) :
    (l.foldl (fun (acc2 : Defs × List String) kv =>
        (upsert kv.1 kv.2 acc2.1,
         if kv.2.root = true ∧ strTruthy (kv.2.selector.bind Selector.css)
         then acc2.2 ++ [kv.1] else acc2.2)) acc).1 = acc.1 ++ l := by
  induction l generalizing acc with
  | nil => simp
  | cons kv rest ih =>
    simp only [List.foldl_cons]
    have hk : kv.1 ∉ acc.1.map Prod.fst := by
      simp only [List.nodup_append, List.map_cons] at h
      intro hm
      exact h.2.2 hm (by simp)
    have hup : upsert kv.1 kv.2 acc.1 = acc.1 ++ [kv] := by
      rw [upsert_append kv.1 kv.2 acc.1 (alookup_eq_none kv.1 acc.1 hk)]
    have h2 : (((acc.1 ++ [kv]).map Prod.fst) ++ rest.map Prod.fst).Nodup := by
      simp only [List.map_append, List.map_cons, List.map_nil, List.append_assoc,
        List.singleton_append]
      simpa using h
    have := ih (upsert kv.1 kv.2 acc.1,
      if kv.2.root = true ∧ strTruthy (kv.2.selector.bind Selector.css)
      then acc.2 ++ [kv.1] else acc.2) (by rw [hup]; exact h2)
    rw [this, hup, List.append_assoc, List.singleton_append]

theorem outerFold_fst (arts : List (String × List (String × PageObjectDef)))
    (acc : Defs × List String)
    (h : (acc.1.map Prod.fst ++ arts.flatMap (fun a => a.2.map Prod.fst)).Nodup) :
    (arts.foldl (fun acc art => art.2.foldl
        (fun (acc2 : Defs × List String) kv =>
          (upsert kv.1 kv.2 acc2.1,
           if kv.2.root = true ∧ strTruthy (kv.2.selector.bind Selector.css)
           then acc2.2 ++ [kv.1] else acc2.2)) acc) acc).1 =
      acc.1 ++ arts.flatMap (fun a => a.2) := by
  induction arts generalizing acc with
  | nil => simp
  | cons a rest ih =>
    simp only [List.foldl_cons, List.flatMap_cons]
    have hassoc : ((acc.1.map Prod.fst ++ a.2.map Prod.fst) ++
        rest.flatMap (fun a => a.2.map Prod.fst)).Nodup := by
      simpa [List.flatMap_cons, List.append_assoc] using h
    have ha : (acc.1.map Prod.fst ++ a.2.map Prod.fst).Nodup :=
      List.Nodup.sublist (List.sublist_append_left _ _) hassoc
    have hinner := innerFold_fst a.2 acc ha
    have hrec := ih (a.2.foldl
      (fun (acc2 : Defs × List String) kv =>
        (upsert kv.1 kv.2 acc2.1,
         if kv.2.root = true ∧ strTruthy (kv.2.selector.bind Selector.css)
         then acc2.2 ++ [kv.1] else acc2.2)) acc)
      (by rw [hinner]; simpa [List.map_append, List.append_assoc] using hassoc)
    rw [hrec, hinner, List.append_assoc]

theorem loadFold_fst (arts : List (String × List (String × PageObjectDef)))
    (h : (arts.flatMap (fun a => a.2.map Prod.fst)).Nodup) :
    (loadFold arts).1 = arts.flatMap (fun a => a.2) := by
  have h2 : ((([] : Defs).map Prod.fst ++ arts.flatMap (fun a => a.2.map Prod.fst)).Nodup) := by
    simpa using h
  have := outerFold_fst arts ([], []) h2
  simpa [loadFold] using this

theorem upsert_keys_mem {α : Type} (k : String) (v : α) (l : List (String × α)) :
    ∀ x, x ∈ (upsert k v l).map Prod.fst → x = k ∨ x ∈ l.map Prod.fst := by
  induction l with
  | nil => intro x hx; simp [upsert] at hx; exact Or.inl hx
  | cons hd tl ih =>
    intro x hx
    obtain ⟨k1, v1⟩ := hd
    by_cases he : k1 = k
    · simp only [upsert, if_pos he, List.map_cons, List.mem_cons] at hx
      rcases hx with h | h
      · exact Or.inl h
      · exact Or.inr (by simp [h])
    · simp only [upsert, if_neg he, List.map_cons, List.mem_cons] at hx
      rcases hx with h | h
      · exact Or.inr (by simp [h])
      · rcases ih x h with h2 | h2
        · exact Or.inl h2
        · exact Or.inr (by simp [h2])

theorem upsert_keys_nodup {α : Type} (k : String) (v : α) (l : List (String × α))
    (h : (l.map Prod.fst).Nodup) : ((upsert k v l).map Prod.fst).Nodup := by
  induction l with
  | nil => simp [upsert]
  | cons hd tl ih =>
    obtain ⟨k1, v1⟩ := hd
    simp only [List.map_cons, List.nodup_cons] at h
    by_cases he : k1 = k
    · simp only [upsert, if_pos he, List.map_cons, List.nodup_cons]
      exact ⟨by rw [← he]; exact h.1, h.2⟩
    · simp only [upsert, if_neg he, List.map_cons, List.nodup_cons]
      refine ⟨?_, ih h.2⟩
      intro hm
      rcases upsert_keys_mem k v tl k1 hm with h2 | h2
      · exact he h2
      · exact h.1 h2

theorem cacheFold_keys_nodup (log : WLog) :
    ∀ acc : List (String × Parsed), (acc.map Prod.fst).Nodup →
      ((log.foldl (fun c kv => upsert kv.1 kv.2 c) acc).map Prod.fst).Nodup := by
  induction log with
  | nil => intro acc h; simpa using h
  | cons kv rest ih =>
    intro acc h
    simp only [List.foldl_cons]
    exact ih _ (upsert_keys_nodup kv.1 kv.2 acc h)

theorem cacheOf_keys_nodup (log : WLog) : ((cacheOf log).map Prod.fst).Nodup :=
  cacheFold_keys_nodup log [] (by simp)

theorem rootPushList_flatMap (arts : List (String × List (String × PageObjectDef))) :
    rootPushList arts =
      ((arts.flatMap (fun a => a.2)).filter
        (fun kv => kv.2.root && strTruthy (kv.2.selector.bind Selector.css))).map
        Prod.fst := by
  induction arts with
  | nil => rfl
  | cons a rest ih =>
    simp only [rootPushList, List.flatMap_cons, List.filter_append, List.map_append]
    simp only [rootPushList] at ih
    rw [ih]
    rfl

/-- C9 amended: reloadDatabase returns the size of the replayed cache, whose
keys are duplicate-free (the count is the number of distinct cached URIs);
the root URI list is the sorted list of per-artifact pushes taken at load
time, and when every URI occurs in exactly one artifact the load object is
the plain concatenation of the artifacts and the root list is exactly the
sorted URIs whose raw loaded definition declares root with a selector css. -/
theorem C9_amended_roots_and_count (fuel : Nat)
    (artifacts : List (String × List (String × PageObjectDef)))
    (res : Nat × List String × Defs × WLog)
    (hnd : (artifacts.flatMap (fun a => a.2.map Prod.fst)).Nodup)
    (h : reloadDatabase fuel artifacts = .ok res) :
    res.2.1 = claimRootUris (artifacts.flatMap (fun a => a.2)) ∧
    (loadFold artifacts).1 = artifacts.flatMap (fun a => a.2) ∧
    res.1 = (cacheOf res.2.2.2).length ∧
    ((cacheOf res.2.2.2).map Prod.fst).Nodup := by
  simp only [reloadDatabase] at h
  obtain ⟨pr, hpr, h2⟩ := bind_ok_inv h
  simp only [JsRes.ok.injEq] at h2
  subst h2
  refine ⟨?_, loadFold_fst artifacts hnd, rfl, cacheOf_keys_nodup _⟩
  show sortStrings (loadFold artifacts).2 = _
  rw [loadFold_snd, rootPushList_flatMap]
  rfl

/-- C9 counterexample scene: two artifacts declare the same URI; the first
declares it root with a selector css, the second overrides it with a
non-root definition. -/
def c9rd : PageObjectDef := { root := true, selector := some { css := some "body" } }

def c9nd : PageObjectDef := {}

def c9arts : List (String × List (String × PageObjectDef)) :=
  [("a1", [("w/x", c9rd)]), ("a2", [("w/x", c9nd)])]

def c9cRes : Nat × List String × Defs × WLog :=
  match reloadDatabase 10 c9arts with
  | .ok v => v
  | _ => (0, [], [], [])

/-- C9 counterexample: the root push of the first artifact survives the
override by the second, so rootPageObjectUris lists w/x although the raw
definition of w/x in the loaded set is not root. -/
theorem C9_counterexample :
    reloadDatabase 10 c9arts = .ok c9cRes ∧
    c9cRes.2.1 = ["w/x"] ∧
    claimRootUris c9cRes.2.2.1 = [] ∧
    alookup "w/x" c9cRes.2.2.1 = some c9nd ∧
    c9nd.root = false :=
  ⟨rfl, rfl, rfl, rfl, rfl⟩

/-- C9 witness scene: one artifact, two distinct URIs, one root. -/
def c9wArts : List (String × List (String × PageObjectDef)) :=
  [("a1", [("w/r", c9rd), ("w/p", c9nd)])]

def c9wRes : Nat × List String × Defs × WLog :=
  match reloadDatabase 10 c9wArts with
  | .ok v => v
  | _ => (0, [], [], [])

/-- C9 witness: the amended root and count law on the concrete scene. -/
theorem C9_witness :
    (c9wArts.flatMap (fun a => a.2.map Prod.fst)).Nodup ∧
    (c9wRes.2.1 = claimRootUris (c9wArts.flatMap (fun a => a.2)) ∧
     (loadFold c9wArts).1 = c9wArts.flatMap (fun a => a.2) ∧
     c9wRes.1 = (cacheOf c9wRes.2.2.2).length ∧
     ((cacheOf c9wRes.2.2.2).map Prod.fst).Nodup) ∧
    c9wRes.2.1 = ["w/r"] ∧ c9wRes.1 = 2 :=
  ⟨by decide, C9_amended_roots_and_count 10 c9wArts c9wRes (by decide) rfl,
   rfl, rfl⟩
